import Mathlib

/-!
Shallow embedding of the `editpe` PE-image editing library (sources under `src/`),
together with proofs settling the frozen claims C1–C10 about its specification.

Modeling conventions:
* Byte buffers (`&[u8]` / `Vec<u8>`) are `List Nat`; well-formed buffers hold values `< 256`.
* Machine integers (`u16`/`u32`/`u64`) are `Nat`. Where the source's cast or wrap-around
  behaviour is semantically relevant (the packed-address computation in
  `ResourceTable::parse`, truncating casts), the reduction modulo `2^w` is written
  explicitly; elsewhere theorems carry bounds hypotheses that exclude overflow, which in
  the Rust source would panic in debug builds.
* Fallible code returns a result type; Rust panics (out-of-bounds slicing, `unwrap`) are
  modeled by a distinguished `panic` outcome so that they are never confused with the
  source's error enum variants.
* `IndexMap` (insertion-ordered map) is modeled as an ordered association list with the
  operations the source uses: `get`, `insert` (replace-in-place-or-append),
  `swap_remove`, and `move_index`.
-/

namespace Editpe

/-- Byte buffers: lists of naturals, `< 256` in well-formed data. -/
abbrev Bytes := List Nat

/-- Little-endian encoding of `v` into `w` bytes (the `zerocopy::IntoBytes` layout of a
`w`-byte integer field; each byte is the corresponding base-256 digit). -/
def leBytes : Nat → Nat → Bytes
  | 0, _ => []
  | w + 1, v => v % 256 :: leBytes w (v / 256)

/-- Unchecked little-endian decode of `w` bytes at `off` (all callers check bounds first;
out-of-range positions read as 0, matching checked access). -/
def decodeLE (bs : Bytes) : Nat → Nat → Nat
  | _, 0 => 0
  | off, w + 1 => bs.getD off 0 + 256 * decodeLE bs (off + 1) w

/-- `errors::ReadError`: a message string. -/
abbrev ReadError := String

/-- `errors::ImageReadError` (the `std`-only `IOError` variant carries external I/O state
and cannot arise in the in-memory paths modeled here). -/
inductive ImageReadError where
  | Utf8Error
  | InvalidBytes (e : ReadError)
  | InvalidHeader (m : String)
  | MissingSection (m : String)
  | InvalidSection (m : String)
deriving Repr, DecidableEq

/-- `errors::ImageWriteError` (without the `std`-only `IOError` variant). -/
inductive ImageWriteError where
  | NotEnoughSpaceInHeader
  | InvalidSectionRange (e l : Nat)
deriving Repr, DecidableEq

/-- `errors::ResourceError` (without the feature-gated variants). -/
inductive ResourceError where
  | InvalidTable (m : String)
  | InvalidBytes (e : ReadError)
deriving Repr, DecidableEq

/-- Result of running a fallible Rust computation: success, an error value of the
source's error enum, or a panic (out-of-bounds slice / failed `unwrap` / overflow). -/
inductive Res (ε : Type) (α : Type) where
  | ok (a : α)
  | err (e : ε)
  | panic
deriving Repr, DecidableEq

def Res.bind : Res ε α → (α → Res ε β) → Res ε β
  | .ok a, f => f a
  | .err e, _ => .err e
  | .panic, _ => .panic

instance : Monad (Res ε) where
  pure := Res.ok
  bind := Res.bind

@[simp] theorem Res.bind_ok (a : α) (f : α → Res ε β) : Res.bind (.ok a) f = f a := rfl
@[simp] theorem Res.bind_err (e : ε) (f : α → Res ε β) : Res.bind (.err e) f = .err e := rfl
@[simp] theorem Res.bind_panic (f : α → Res ε β) : Res.bind .panic f = .panic := rfl
@[simp] theorem Res.pure_eq (a : α) : (pure a : Res ε α) = .ok a := rfl
@[simp] theorem Res.bind_eq (x : Res ε α) (f : α → Res ε β) :
    x >>= f = Res.bind x f := rfl

abbrev PRes := Res ImageReadError
abbrev WRes := Res ImageWriteError

/-- Model of `util::read::<T>(&image[off..])` for a `w`-byte little-endian integer:
slicing `&image[off..]` panics when `off > len`; `T::read_from_prefix` fails with a
`ReadError` (converted to `InvalidBytes` by `?`) when fewer than `w` bytes remain. -/
def readUN (bs : Bytes) (off w : Nat) : PRes Nat :=
  if off > bs.length then .panic
  else if bs.length - off < w then .err (.InvalidBytes "read")
  else .ok (decodeLE bs off w)

/-- Model of the range slice `&image[a..b]`: panics unless `a ≤ b ≤ len`. -/
def sliceRange (bs : Bytes) (a b : Nat) : Res ε Bytes :=
  if a ≤ b ∧ b ≤ bs.length then .ok ((bs.drop a).take (b - a)) else .panic

/-- `util::aligned_to` (on unsigned integers). -/
def aligned_to (value alignment : Nat) : Nat :=
  if value % alignment = 0 then value else value + alignment - value % alignment

/-! ### PE header records (`types.rs`), their readers and serializers -/

/-- `types::CoffHeader` (20 bytes). -/
structure CoffHeader where
  machine : Nat
  number_of_sections : Nat
  time_date_stamp : Nat
  pointer_to_symbol_table : Nat
  number_of_symbols : Nat
  size_of_optional_header : Nat
  characteristics : Nat
deriving Repr, DecidableEq

def read_CoffHeader (bs : Bytes) (off : Nat) : PRes CoffHeader :=
  if off > bs.length then .panic
  else if bs.length - off < 20 then .err (.InvalidBytes "CoffHeader")
  else .ok {
    machine := decodeLE bs off 2
    number_of_sections := decodeLE bs (off + 2) 2
    time_date_stamp := decodeLE bs (off + 4) 4
    pointer_to_symbol_table := decodeLE bs (off + 8) 4
    number_of_symbols := decodeLE bs (off + 12) 4
    size_of_optional_header := decodeLE bs (off + 16) 2
    characteristics := decodeLE bs (off + 18) 2 }

def CoffHeader.as_bytes (h : CoffHeader) : Bytes :=
  leBytes 2 h.machine ++ leBytes 2 h.number_of_sections ++ leBytes 4 h.time_date_stamp ++
  leBytes 4 h.pointer_to_symbol_table ++ leBytes 4 h.number_of_symbols ++
  leBytes 2 h.size_of_optional_header ++ leBytes 2 h.characteristics

/-- `types::StandardHeader` (24 bytes; the linker version is a `VersionU8` pair). -/
structure StandardHeader where
  magic : Nat
  linker_version_major : Nat
  linker_version_minor : Nat
  size_of_code : Nat
  size_of_initialized_data : Nat
  size_of_uninitialized_data : Nat
  address_of_entry_point : Nat
  base_of_code : Nat
deriving Repr, DecidableEq

def read_StandardHeader (bs : Bytes) (off : Nat) : PRes StandardHeader :=
  if off > bs.length then .panic
  else if bs.length - off < 24 then .err (.InvalidBytes "StandardHeader")
  else .ok {
    magic := decodeLE bs off 2
    linker_version_major := decodeLE bs (off + 2) 1
    linker_version_minor := decodeLE bs (off + 3) 1
    size_of_code := decodeLE bs (off + 4) 4
    size_of_initialized_data := decodeLE bs (off + 8) 4
    size_of_uninitialized_data := decodeLE bs (off + 12) 4
    address_of_entry_point := decodeLE bs (off + 16) 4
    base_of_code := decodeLE bs (off + 20) 4 }

def StandardHeader.as_bytes (h : StandardHeader) : Bytes :=
  leBytes 2 h.magic ++ leBytes 1 h.linker_version_major ++ leBytes 1 h.linker_version_minor ++
  leBytes 4 h.size_of_code ++ leBytes 4 h.size_of_initialized_data ++
  leBytes 4 h.size_of_uninitialized_data ++ leBytes 4 h.address_of_entry_point ++
  leBytes 4 h.base_of_code

/-- `types::WindowsHeader<UXX>` fields (width differences between the `u32` and `u64`
variants only affect the byte layout, handled by the two readers/serializers below). -/
structure WindowsHeader where
  image_base : Nat
  section_alignment : Nat
  file_alignment : Nat
  operating_system_version_major : Nat
  operating_system_version_minor : Nat
  image_version_major : Nat
  image_version_minor : Nat
  subsystem_version_major : Nat
  subsystem_version_minor : Nat
  win32_version_value : Nat
  size_of_image : Nat
  size_of_headers : Nat
  check_sum : Nat
  subsystem : Nat
  dll_characteristics : Nat
  size_of_stack_reserve : Nat
  size_of_stack_commit : Nat
  size_of_heap_reserve : Nat
  size_of_heap_commit : Nat
  loader_flags : Nat
  number_of_rva_and_sizes : Nat
deriving Repr, DecidableEq

def read_WindowsHeader32 (bs : Bytes) (off : Nat) : PRes WindowsHeader :=
  if off > bs.length then .panic
  else if bs.length - off < 68 then .err (.InvalidBytes "WindowsHeader")
  else .ok {
    image_base := decodeLE bs off 4
    section_alignment := decodeLE bs (off + 4) 4
    file_alignment := decodeLE bs (off + 8) 4
    operating_system_version_major := decodeLE bs (off + 12) 2
    operating_system_version_minor := decodeLE bs (off + 14) 2
    image_version_major := decodeLE bs (off + 16) 2
    image_version_minor := decodeLE bs (off + 18) 2
    subsystem_version_major := decodeLE bs (off + 20) 2
    subsystem_version_minor := decodeLE bs (off + 22) 2
    win32_version_value := decodeLE bs (off + 24) 4
    size_of_image := decodeLE bs (off + 28) 4
    size_of_headers := decodeLE bs (off + 32) 4
    check_sum := decodeLE bs (off + 36) 4
    subsystem := decodeLE bs (off + 40) 2
    dll_characteristics := decodeLE bs (off + 42) 2
    size_of_stack_reserve := decodeLE bs (off + 44) 4
    size_of_stack_commit := decodeLE bs (off + 48) 4
    size_of_heap_reserve := decodeLE bs (off + 52) 4
    size_of_heap_commit := decodeLE bs (off + 56) 4
    loader_flags := decodeLE bs (off + 60) 4
    number_of_rva_and_sizes := decodeLE bs (off + 64) 4 }

def read_WindowsHeader64 (bs : Bytes) (off : Nat) : PRes WindowsHeader :=
  if off > bs.length then .panic
  else if bs.length - off < 88 then .err (.InvalidBytes "WindowsHeader")
  else .ok {
    image_base := decodeLE bs off 8
    section_alignment := decodeLE bs (off + 8) 4
    file_alignment := decodeLE bs (off + 12) 4
    operating_system_version_major := decodeLE bs (off + 16) 2
    operating_system_version_minor := decodeLE bs (off + 18) 2
    image_version_major := decodeLE bs (off + 20) 2
    image_version_minor := decodeLE bs (off + 22) 2
    subsystem_version_major := decodeLE bs (off + 24) 2
    subsystem_version_minor := decodeLE bs (off + 26) 2
    win32_version_value := decodeLE bs (off + 28) 4
    size_of_image := decodeLE bs (off + 32) 4
    size_of_headers := decodeLE bs (off + 36) 4
    check_sum := decodeLE bs (off + 40) 4
    subsystem := decodeLE bs (off + 44) 2
    dll_characteristics := decodeLE bs (off + 46) 2
    size_of_stack_reserve := decodeLE bs (off + 48) 8
    size_of_stack_commit := decodeLE bs (off + 56) 8
    size_of_heap_reserve := decodeLE bs (off + 64) 8
    size_of_heap_commit := decodeLE bs (off + 72) 8
    loader_flags := decodeLE bs (off + 80) 4
    number_of_rva_and_sizes := decodeLE bs (off + 84) 4 }

def WindowsHeader.as_bytes32 (h : WindowsHeader) : Bytes :=
  leBytes 4 h.image_base ++ leBytes 4 h.section_alignment ++ leBytes 4 h.file_alignment ++
  leBytes 2 h.operating_system_version_major ++ leBytes 2 h.operating_system_version_minor ++
  leBytes 2 h.image_version_major ++ leBytes 2 h.image_version_minor ++
  leBytes 2 h.subsystem_version_major ++ leBytes 2 h.subsystem_version_minor ++
  leBytes 4 h.win32_version_value ++ leBytes 4 h.size_of_image ++
  leBytes 4 h.size_of_headers ++ leBytes 4 h.check_sum ++ leBytes 2 h.subsystem ++
  leBytes 2 h.dll_characteristics ++ leBytes 4 h.size_of_stack_reserve ++
  leBytes 4 h.size_of_stack_commit ++ leBytes 4 h.size_of_heap_reserve ++
  leBytes 4 h.size_of_heap_commit ++ leBytes 4 h.loader_flags ++
  leBytes 4 h.number_of_rva_and_sizes

def WindowsHeader.as_bytes64 (h : WindowsHeader) : Bytes :=
  leBytes 8 h.image_base ++ leBytes 4 h.section_alignment ++ leBytes 4 h.file_alignment ++
  leBytes 2 h.operating_system_version_major ++ leBytes 2 h.operating_system_version_minor ++
  leBytes 2 h.image_version_major ++ leBytes 2 h.image_version_minor ++
  leBytes 2 h.subsystem_version_major ++ leBytes 2 h.subsystem_version_minor ++
  leBytes 4 h.win32_version_value ++ leBytes 4 h.size_of_image ++
  leBytes 4 h.size_of_headers ++ leBytes 4 h.check_sum ++ leBytes 2 h.subsystem ++
  leBytes 2 h.dll_characteristics ++ leBytes 8 h.size_of_stack_reserve ++
  leBytes 8 h.size_of_stack_commit ++ leBytes 8 h.size_of_heap_reserve ++
  leBytes 8 h.size_of_heap_commit ++ leBytes 4 h.loader_flags ++
  leBytes 4 h.number_of_rva_and_sizes

/-- `types::GenericWindowsHeader`. -/
inductive GenericWindowsHeader where
  | WindowsHeader32 (h : WindowsHeader)
  | WindowsHeader64 (h : WindowsHeader)
deriving Repr, DecidableEq

def GenericWindowsHeader.as_bytes : GenericWindowsHeader → Bytes
  | .WindowsHeader32 h => h.as_bytes32
  | .WindowsHeader64 h => h.as_bytes64

def GenericWindowsHeader.section_alignment : GenericWindowsHeader → Nat
  | .WindowsHeader32 h => h.section_alignment
  | .WindowsHeader64 h => h.section_alignment

/-- `types::ImageDataDirectory` (8 bytes). -/
structure ImageDataDirectory where
  virtual_address : Nat
  size : Nat
deriving Repr, DecidableEq

instance : Inhabited ImageDataDirectory := ⟨⟨0, 0⟩⟩

def ImageDataDirectory.default : ImageDataDirectory := ⟨0, 0⟩

def read_ImageDataDirectory (bs : Bytes) (off : Nat) : PRes ImageDataDirectory :=
  if off > bs.length then .panic
  else if bs.length - off < 8 then .err (.InvalidBytes "ImageDataDirectory")
  else .ok { virtual_address := decodeLE bs off 4, size := decodeLE bs (off + 4) 4 }

def ImageDataDirectory.as_bytes (d : ImageDataDirectory) : Bytes :=
  leBytes 4 d.virtual_address ++ leBytes 4 d.size

/-- `types::SectionHeader` (40 bytes; `name` is the raw `u64`). -/
structure SectionHeader where
  name : Nat
  virtual_size : Nat
  virtual_address : Nat
  size_of_raw_data : Nat
  pointer_to_raw_data : Nat
  pointer_to_relocations : Nat
  pointer_to_linenumbers : Nat
  number_of_relocations : Nat
  number_of_linenumbers : Nat
  characteristics : Nat
deriving Repr, DecidableEq

instance : Inhabited SectionHeader := ⟨⟨0, 0, 0, 0, 0, 0, 0, 0, 0, 0⟩⟩

def SectionHeader.default : SectionHeader := ⟨0, 0, 0, 0, 0, 0, 0, 0, 0, 0⟩

def read_SectionHeader (bs : Bytes) (off : Nat) : PRes SectionHeader :=
  if off > bs.length then .panic
  else if bs.length - off < 40 then .err (.InvalidBytes "SectionHeader")
  else .ok {
    name := decodeLE bs off 8
    virtual_size := decodeLE bs (off + 8) 4
    virtual_address := decodeLE bs (off + 12) 4
    size_of_raw_data := decodeLE bs (off + 16) 4
    pointer_to_raw_data := decodeLE bs (off + 20) 4
    pointer_to_relocations := decodeLE bs (off + 24) 4
    pointer_to_linenumbers := decodeLE bs (off + 28) 4
    number_of_relocations := decodeLE bs (off + 32) 2
    number_of_linenumbers := decodeLE bs (off + 34) 2
    characteristics := decodeLE bs (off + 36) 4 }

def SectionHeader.as_bytes (s : SectionHeader) : Bytes :=
  leBytes 8 s.name ++ leBytes 4 s.virtual_size ++ leBytes 4 s.virtual_address ++
  leBytes 4 s.size_of_raw_data ++ leBytes 4 s.pointer_to_raw_data ++
  leBytes 4 s.pointer_to_relocations ++ leBytes 4 s.pointer_to_linenumbers ++
  leBytes 2 s.number_of_relocations ++ leBytes 2 s.number_of_linenumbers ++
  leBytes 4 s.characteristics

/-- `types::ResourceDirectoryTable` (16 bytes; `version` is a `VersionU16` pair). -/
structure ResourceDirectoryTable where
  characteristics : Nat
  time_date_stamp : Nat
  version_major : Nat
  version_minor : Nat
  number_of_name_entries : Nat
  number_of_id_entries : Nat
deriving Repr, DecidableEq

instance : Inhabited ResourceDirectoryTable := ⟨⟨0, 0, 0, 0, 0, 0⟩⟩

def ResourceDirectoryTable.default : ResourceDirectoryTable := ⟨0, 0, 0, 0, 0, 0⟩

def read_ResourceDirectoryTable (bs : Bytes) (off : Nat) : PRes ResourceDirectoryTable :=
  if off > bs.length then .panic
  else if bs.length - off < 16 then .err (.InvalidBytes "ResourceDirectoryTable")
  else .ok {
    characteristics := decodeLE bs off 4
    time_date_stamp := decodeLE bs (off + 4) 4
    version_major := decodeLE bs (off + 8) 2
    version_minor := decodeLE bs (off + 10) 2
    number_of_name_entries := decodeLE bs (off + 12) 2
    number_of_id_entries := decodeLE bs (off + 14) 2 }

def ResourceDirectoryTable.as_bytes (t : ResourceDirectoryTable) : Bytes :=
  leBytes 4 t.characteristics ++ leBytes 4 t.time_date_stamp ++ leBytes 2 t.version_major ++
  leBytes 2 t.version_minor ++ leBytes 2 t.number_of_name_entries ++
  leBytes 2 t.number_of_id_entries

/-- `types::ResourceDirectoryEntry` (8 bytes). -/
structure ResourceDirectoryEntry where
  name_offset_or_integer_id : Nat
  data_entry_or_subdirectory_offset : Nat
deriving Repr, DecidableEq

def read_ResourceDirectoryEntry (bs : Bytes) (off : Nat) : PRes ResourceDirectoryEntry :=
  if off > bs.length then .panic
  else if bs.length - off < 8 then .err (.InvalidBytes "ResourceDirectoryEntry")
  else .ok { name_offset_or_integer_id := decodeLE bs off 4
             data_entry_or_subdirectory_offset := decodeLE bs (off + 4) 4 }

def ResourceDirectoryEntry.as_bytes (e : ResourceDirectoryEntry) : Bytes :=
  leBytes 4 e.name_offset_or_integer_id ++ leBytes 4 e.data_entry_or_subdirectory_offset

/-- `types::ResourceDataEntry` (16 bytes). -/
structure ResourceDataEntry where
  data_rva : Nat
  size : Nat
  codepage : Nat
  reserved : Nat
deriving Repr, DecidableEq

def read_ResourceDataEntry (bs : Bytes) (off : Nat) : PRes ResourceDataEntry :=
  if off > bs.length then .panic
  else if bs.length - off < 16 then .err (.InvalidBytes "ResourceDataEntry")
  else .ok { data_rva := decodeLE bs off 4, size := decodeLE bs (off + 4) 4
             codepage := decodeLE bs (off + 8) 4, reserved := decodeLE bs (off + 12) 4 }

def ResourceDataEntry.as_bytes (e : ResourceDataEntry) : Bytes :=
  leBytes 4 e.data_rva ++ leBytes 4 e.size ++ leBytes 4 e.codepage ++ leBytes 4 e.reserved

end Editpe

namespace Editpe

/-! ### Constants (`constants.rs`) -/

def LANGUAGE_ID_EN_US : Nat := 1033
def CODE_PAGE_ID_EN_US : Nat := 1200
def RT_MANIFEST : Nat := 0x18
def PE_DOS_MAGIC : Nat := 0x5a4d
def PE_PTR_OFFSET : Nat := 0x3c
def PE_NT_SIGNATURE : Nat := 0x00004550
def PE_32_MAGIC : Nat := 0x010b
def PE_64_MAGIC : Nat := 0x020b
def IMAGE_SCN_CNT_INITIALIZED_DATA : Nat := 0x00000040
def IMAGE_SCN_MEM_READ : Nat := 0x40000000

/-! ### The resource tree (`resource.rs`)

`ResourceTable` owns an insertion-ordered map (`IndexMap`) from entry names to entries;
the map is modeled as the ordered list `ResourceEntries`. -/

/-- `resource::ResourceData`. -/
structure ResourceData where
  data : Bytes
  codepage : Nat
  reserved : Nat
deriving Repr, DecidableEq

/-- `ResourceData::default()`. -/
def ResourceData.default : ResourceData :=
  { data := [], codepage := CODE_PAGE_ID_EN_US, reserved := 0 }

instance : Inhabited ResourceData := ⟨ResourceData.default⟩

/-- `resource::ResourceEntryName`: a raw id or the on-disk name bytes
(2-byte length in UTF-16 units, then the UTF-16LE code units). -/
inductive ResourceEntryName where
  | ID (id : Nat)
  | Name (data : Bytes)
deriving Repr, DecidableEq

/-- `ResourceEntryName::default()`. -/
def ResourceEntryName.default : ResourceEntryName := .ID LANGUAGE_ID_EN_US

instance : Inhabited ResourceEntryName := ⟨ResourceEntryName.default⟩

def ResourceEntryName.string_size : ResourceEntryName → Nat
  | .ID _ => 0
  | .Name name => name.length

def ResourceEntryName.string_data : ResourceEntryName → Bytes
  | .ID _ => []
  | .Name data => data

/-- `ResourceEntryName::id`; the `Name` arm is `unreachable!()` in the source (every call
site is guarded by `string_size() > 0`), modeled as 0. -/
def ResourceEntryName.entryId : ResourceEntryName → Nat
  | .ID id => id
  | .Name _ => 0

mutual
/-- `resource::ResourceEntry`. -/
inductive ResourceEntry where
  | Table (t : ResourceTable)
  | Data (d : ResourceData)
deriving Repr, DecidableEq
/-- `resource::ResourceTable`: header record plus the insertion-ordered entry map. -/
inductive ResourceTable where
  | mk (data : ResourceDirectoryTable) (entries : ResourceEntries)
deriving Repr, DecidableEq
/-- The ordered key–value sequence of an `IndexMap<ResourceEntryName, ResourceEntry>`. -/
inductive ResourceEntries where
  | nil
  | cons (name : ResourceEntryName) (entry : ResourceEntry) (rest : ResourceEntries)
deriving Repr, DecidableEq
end

instance : Inhabited ResourceEntry := ⟨.Data ResourceData.default⟩

def ResourceTable.data : ResourceTable → ResourceDirectoryTable
  | .mk d _ => d

def ResourceTable.entries : ResourceTable → ResourceEntries
  | .mk _ es => es

/-- `ResourceTable::default()`. -/
def ResourceTable.default : ResourceTable := .mk ResourceDirectoryTable.default .nil

instance : Inhabited ResourceTable := ⟨ResourceTable.default⟩

def ResourceEntries.length : ResourceEntries → Nat
  | .nil => 0
  | .cons _ _ rest => rest.length + 1

def ResourceEntries.toList : ResourceEntries → List (ResourceEntryName × ResourceEntry)
  | .nil => []
  | .cons n e rest => (n, e) :: rest.toList

def ResourceEntries.ofList : List (ResourceEntryName × ResourceEntry) → ResourceEntries
  | [] => .nil
  | (n, e) :: rest => .cons n e (ofList rest)

/-- `IndexMap::get`. -/
def ResourceEntries.get : ResourceEntries → ResourceEntryName → Option ResourceEntry
  | .nil, _ => none
  | .cons n e rest, name => if n = name then some e else rest.get name

/-- `IndexMap::insert`: replace in place when the key exists (returning the old value),
append otherwise. -/
def ResourceEntries.insertMap :
    ResourceEntries → ResourceEntryName → ResourceEntry → ResourceEntries × Option ResourceEntry
  | .nil, name, entry => (.cons name entry .nil, none)
  | .cons n e rest, name, entry =>
    if n = name then (.cons name entry rest, some e)
    else
      let (rest', old) := rest.insertMap name entry
      (.cons n e rest', old)

/-- `IndexMap::swap_remove`: remove the pair for `name`; the last pair takes its place. -/
def ResourceEntries.swapRemoveMap (es : ResourceEntries) (name : ResourceEntryName) :
    Option (ResourceEntry × ResourceEntries) :=
  let l := es.toList
  match l.findIdx? (fun p => p.1 == name) with
  | none => none
  | some i =>
    some ((l.getD i default).2,
      ofList ((l.set i (l.getLast?.getD default)).dropLast))

/-- `IndexMap::move_index` (shift-move; all modeled call sites are in bounds). -/
def listMoveIndex (l : List α) (i j : Nat) : List α :=
  match l.get? i with
  | none => l
  | some x => (l.eraseIdx i).insertIdx j x

/-- `ResourceTable::get`. -/
def ResourceTable.get (t : ResourceTable) (name : ResourceEntryName) : Option ResourceEntry :=
  t.entries.get name

/-- `ResourceTable::insert` (returns the replaced entry; bumps the matching header count
when the key is new). -/
def ResourceTable.insert (t : ResourceTable) (name : ResourceEntryName)
    (entry : ResourceEntry) : ResourceTable × Option ResourceEntry :=
  let (es', old) := t.entries.insertMap name entry
  let hdr := t.data
  let hdr :=
    if old.isNone then
      if name.string_size > 0 then
        { hdr with number_of_name_entries := hdr.number_of_name_entries + 1 }
      else { hdr with number_of_id_entries := hdr.number_of_id_entries + 1 }
    else hdr
  (.mk hdr es', old)

/-- `ResourceTable::insert_at`: insert or replace, then `move_index` the pair to
`position`. -/
def ResourceTable.insert_at (t : ResourceTable) (name : ResourceEntryName)
    (entry : ResourceEntry) (position : Nat) : ResourceTable × Option ResourceEntry :=
  let l := t.entries.toList
  let len := l.length
  let old := t.entries.get name
  let index := (l.findIdx? (fun p => p.1 == name)).getD len
  let l := if index < len then l.set index (name, entry) else l ++ [(name, entry)]
  let l := listMoveIndex l index position
  let hdr := t.data
  let hdr :=
    if index ≥ len then
      if name.string_size > 0 then
        { hdr with number_of_name_entries := hdr.number_of_name_entries + 1 }
      else { hdr with number_of_id_entries := hdr.number_of_id_entries + 1 }
    else hdr
  (.mk hdr (.ofList l), old)

/-- `ResourceTable::remove` (a swap-remove; decrements the matching header count). -/
def ResourceTable.remove (t : ResourceTable) (name : ResourceEntryName) :
    ResourceTable × Option ResourceEntry :=
  match t.entries.swapRemoveMap name with
  | none => (t, none)
  | some (entry, es') =>
    let hdr := t.data
    let hdr :=
      if name.string_size > 0 then
        { hdr with number_of_name_entries := hdr.number_of_name_entries - 1 }
      else { hdr with number_of_id_entries := hdr.number_of_id_entries - 1 }
    (.mk hdr es', some entry)

/-! Size computations (`ResourceTable::{size, tables_size, strings_size,
descriptions_size, data_size}` and the matching `ResourceEntry` methods). -/

mutual
def ResourceTable.tables_size : ResourceTable → Nat
  | .mk _ es => es.tables_size_sum + 16
def ResourceEntries.tables_size_sum : ResourceEntries → Nat
  | .nil => 0
  | .cons _ e rest => e.table_size + rest.tables_size_sum
def ResourceEntry.table_size : ResourceEntry → Nat
  | .Table t => t.tables_size + 8
  | .Data _ => 8
end

mutual
def ResourceTable.strings_size : ResourceTable → Nat
  | .mk _ es => es.strings_size_sum
def ResourceEntries.strings_size_sum : ResourceEntries → Nat
  | .nil => 0
  | .cons name e rest => (name.string_size + e.entry_strings_size) + rest.strings_size_sum
def ResourceEntry.entry_strings_size : ResourceEntry → Nat
  | .Table t => t.strings_size
  | .Data _ => 0
end

mutual
def ResourceTable.descriptions_size : ResourceTable → Nat
  | .mk _ es => es.descriptions_size_sum
def ResourceEntries.descriptions_size_sum : ResourceEntries → Nat
  | .nil => 0
  | .cons _ e rest => e.description_size + rest.descriptions_size_sum
def ResourceEntry.description_size : ResourceEntry → Nat
  | .Table t => t.descriptions_size
  | .Data _ => 16
end

mutual
def ResourceTable.data_size : ResourceTable → Nat
  | .mk _ es => es.data_size_sum
def ResourceEntries.data_size_sum : ResourceEntries → Nat
  | .nil => 0
  | .cons _ e rest => e.entry_data_size + rest.data_size_sum
def ResourceEntry.entry_data_size : ResourceEntry → Nat
  | .Table t => t.data_size
  | .Data d => d.data.length
end

/-- `ResourceTable::size`. -/
def ResourceTable.size (t : ResourceTable) : Nat :=
  t.tables_size + t.strings_size + t.descriptions_size + t.data_size

/-! ### The resource tree builder (`ResourceTable::{build, build_table}`)

`build_table` threads four running offsets (tables, strings, descriptions, data) through
the tree exactly as the source's `&mut u32` parameters do; its two sequential `for`
loops over the entry map become `pass1` (emit this table's entry records, name strings,
data descriptors and payloads) and `pass2` (recurse into the sub-tables). -/

/-- `resource::TableData`. -/
inductive TableData where
  | Table (t : ResourceDirectoryTable)
  | Entry (e : ResourceDirectoryEntry)
deriving Repr, DecidableEq

mutual
def ResourceTable.build_table (t : ResourceTable) (virtual_address tbo sto deo dao : Nat) :
    (List TableData × Bytes × List ResourceDataEntry × Bytes) × Nat × Nat × Nat × Nat :=
  match t with
  | .mk hdr es =>
    let ((es_td, es_s, es_d, es_p), sto1, deo1, dao1) :=
      es.pass1 es.length (tbo + 16) virtual_address sto deo dao 0
    let ((cs_td, cs_s, cs_d, cs_p), tbo2, sto2, deo2, dao2) :=
      es.pass2 virtual_address (tbo + 16 + 8 * es.length) sto1 deo1 dao1
    ((TableData.Table hdr :: (es_td ++ cs_td), es_s ++ cs_s, es_d ++ cs_d, es_p ++ cs_p),
      tbo2, sto2, deo2, dao2)
def ResourceEntries.pass1 (es : ResourceEntries)
    (fullLen base virtual_address sto deo dao nts : Nat) :
    (List TableData × Bytes × List ResourceDataEntry × Bytes) × Nat × Nat × Nat :=
  match es with
  | .nil => (([], [], [], []), sto, deo, dao)
  | .cons name e rest =>
    let name_offset_or_integer_id :=
      if name.string_size > 0 then sto ||| 0x80000000 else name.entryId
    let sto' := sto + name.string_size
    match e with
    | .Table t' =>
      let entry_data : ResourceDirectoryEntry :=
        { name_offset_or_integer_id
          data_entry_or_subdirectory_offset := (base + 8 * fullLen + nts) ||| 0x80000000 }
      let ((tds, ss, ds, ps), sto2, deo2, dao2) :=
        rest.pass1 fullLen base virtual_address sto' deo dao (nts + t'.tables_size)
      ((TableData.Entry entry_data :: tds, name.string_data ++ ss, ds, ps), sto2, deo2, dao2)
    | .Data d =>
      let entry_data : ResourceDirectoryEntry :=
        { name_offset_or_integer_id, data_entry_or_subdirectory_offset := deo }
      let description_data : ResourceDataEntry :=
        { data_rva := dao + virtual_address, size := d.data.length
          codepage := d.codepage, reserved := d.reserved }
      let ((tds, ss, ds, ps), sto2, deo2, dao2) :=
        rest.pass1 fullLen base virtual_address sto' (deo + 16) (dao + d.data.length) nts
      ((TableData.Entry entry_data :: tds, name.string_data ++ ss,
        description_data :: ds, d.data ++ ps), sto2, deo2, dao2)
def ResourceEntries.pass2 (es : ResourceEntries) (virtual_address tbo sto deo dao : Nat) :
    (List TableData × Bytes × List ResourceDataEntry × Bytes) × Nat × Nat × Nat × Nat :=
  match es with
  | .nil => (([], [], [], []), tbo, sto, deo, dao)
  | .cons _ e rest =>
    match e with
    | .Table t' =>
      let ((t_td, t_s, t_d, t_p), tbo1, sto1, deo1, dao1) :=
        t'.build_table virtual_address tbo sto deo dao
      let ((r_td, r_s, r_d, r_p), tbo2, sto2, deo2, dao2) :=
        rest.pass2 virtual_address tbo1 sto1 deo1 dao1
      ((t_td ++ r_td, t_s ++ r_s, t_d ++ r_d, t_p ++ r_p), tbo2, sto2, deo2, dao2)
    | .Data _ => rest.pass2 virtual_address tbo sto deo dao
end

/-- Patched serialization of one `TableData` element in `ResourceTable::build`:
data-entry offsets (high bit clear) get the full tables+strings size added; name offsets
(high bit set) get the full tables size added. -/
def TableData.ser (tbo sto : Nat) : TableData → Bytes
  | .Table hdr => hdr.as_bytes
  | .Entry e =>
    let e :=
      if e.data_entry_or_subdirectory_offset &&& 0x80000000 = 0 then
        { e with data_entry_or_subdirectory_offset :=
            e.data_entry_or_subdirectory_offset + (tbo + sto) }
      else e
    let e :=
      if e.name_offset_or_integer_id &&& 0x80000000 ≠ 0 then
        { e with name_offset_or_integer_id := e.name_offset_or_integer_id + tbo }
      else e
    e.as_bytes

/-- The patched serialization of the `tables_data` stream in `ResourceTable::build`. -/
def serTDlist (tbo sto : Nat) (l : List TableData) : Bytes :=
  l.flatMap (TableData.ser tbo sto)

/-- The patched serialization of the `descriptions_data` stream in
`ResourceTable::build`: every `data_rva` gets the tables+strings+descriptions size
added. -/
def serDescs (k : Nat) (l : List ResourceDataEntry) : Bytes :=
  l.flatMap fun d => ({ d with data_rva := d.data_rva + k } : ResourceDataEntry).as_bytes

/-- `ResourceTable::build`. -/
def ResourceTable.build (t : ResourceTable) (virtual_address : Nat) : Bytes :=
  let ((tables_data, strings_data, descriptions_data, data_data), tbo, sto, deo, _) :=
    t.build_table virtual_address 0 0 0 0
  serTDlist tbo sto tables_data ++
  strings_data ++
  serDescs (tbo + sto + deo) descriptions_data ++
  data_data

/-- `resource::ResourceDirectory`. -/
structure ResourceDirectory where
  virtual_address : Nat
  root : ResourceTable
deriving Repr, DecidableEq

/-- `ResourceDirectory::default()`. -/
def ResourceDirectory.default : ResourceDirectory := ⟨0, ResourceTable.default⟩

instance : Inhabited ResourceDirectory := ⟨ResourceDirectory.default⟩

/-- `ResourceDirectory::size`. -/
def ResourceDirectory.size (d : ResourceDirectory) : Nat := d.root.size

/-- `ResourceDirectory::build`. -/
def ResourceDirectory.build (d : ResourceDirectory) (virtual_address : Nat) : Bytes :=
  d.root.build virtual_address

end Editpe

namespace Editpe

/-! ### The resource tree reader (`ResourceTable::parse` and friends) -/

/-- `ResourceEntryName::parse`: ids with the high bit set point (relative to
`base_address`, passed as `offset`) at a length-prefixed UTF-16LE string whose raw bytes
are kept; otherwise the value is the integer id. -/
def ResourceEntryName.parse (image : Bytes) (offset id : Nat) : PRes ResourceEntryName :=
  if id &&& 0x80000000 ≠ 0 then
    let address := offset + (id ^^^ 0x80000000)
    readUN image address 2 >>= fun length =>
    sliceRange image address (address + 2 + length * 2) >>= fun data =>
    .ok (.Name data)
  else .ok (.ID id)

/-- The leaf-address computation of `ResourceTable::parse` (source lines 865–875): the
in-file address is computed as an `i64`, cast to `u64` (two's complement, i.e. reduction
mod `2^64`), and when its top 40 bits are all set they are cleared — the tolerance for
packed (e.g. UPX) images. -/
def packedLeafAddress (base_address data_rva virtual_address : Nat) : Nat :=
  let address : Int :=
    (base_address : Int) + (data_rva : Int) - (virtual_address : Int)
  let address : Nat := (address % (2 ^ 64 : Int)).toNat
  if address &&& 0xffffffffff000000 = 0xffffffffff000000 then
    address ^^^ 0xffffffffff000000
  else address

mutual
/-- `ResourceTable::parse`. The source recurses on untrusted offsets without an explicit
depth bound; `fuel` (strictly decreasing on every recursive step) makes the model total,
with exhaustion reported as `panic`. `ResourceTable.parse_fuel` computes a sufficient
fuel for well-formed trees. -/
def ResourceTable.parse (fuel : Nat) (image : Bytes)
    (base_address virtual_address directory_offset : Nat) : PRes ResourceTable :=
  match fuel with
  | 0 => .panic
  | fuel + 1 =>
    let table_offset := base_address + directory_offset
    read_ResourceDirectoryTable image table_offset >>= fun resource_table =>
    ResourceTable.parse_entries fuel image base_address virtual_address (table_offset + 16)
      (resource_table.number_of_name_entries + resource_table.number_of_id_entries)
      .nil >>= fun entries =>
    .ok (.mk resource_table entries)
termination_by structural fuel

/-- The entry loop of `ResourceTable::parse`: reads `count` 8-byte entries starting at
`entry_offset`, inserting each parsed entry into the accumulated map. An out-of-range
leaf (after the packed-address adjustment) is skipped with `continue`. -/
def ResourceTable.parse_entries (fuel : Nat) (image : Bytes)
    (base_address virtual_address entry_offset count : Nat)
    (acc : ResourceEntries) : PRes ResourceEntries :=
  match count with
  | 0 => .ok acc
  | count + 1 =>
    match fuel with
    | 0 => .panic
    | fuel + 1 =>
      read_ResourceDirectoryEntry image entry_offset >>= fun entry =>
      if entry.data_entry_or_subdirectory_offset &&& 0x80000000 ≠ 0 then
        ResourceEntryName.parse image base_address entry.name_offset_or_integer_id
          >>= fun name =>
        ResourceTable.parse fuel image base_address virtual_address
          (entry.data_entry_or_subdirectory_offset ^^^ 0x80000000) >>= fun sub =>
        ResourceTable.parse_entries fuel image base_address virtual_address
          (entry_offset + 8) count (acc.insertMap name (.Table sub)).1
      else
        -- leaf entry
        read_ResourceDataEntry image (base_address + entry.data_entry_or_subdirectory_offset)
          >>= fun data =>
        let address := packedLeafAddress base_address data.data_rva virtual_address
        if address + data.size > image.length then
          ResourceTable.parse_entries fuel image base_address virtual_address
            (entry_offset + 8) count acc
        else
          let address := address % 2 ^ 32
          ResourceEntryName.parse image base_address entry.name_offset_or_integer_id
            >>= fun name =>
          sliceRange image address (address + data.size) >>= fun payload =>
          ResourceTable.parse_entries fuel image base_address virtual_address
            (entry_offset + 8) count
            (acc.insertMap name (.Data ⟨payload, data.codepage, data.reserved⟩)).1
termination_by structural fuel
end

/-- `ResourceDirectory::parse`. -/
def ResourceDirectory.parse (fuel : Nat) (image : Bytes)
    (base_address virtual_address : Nat) : PRes ResourceDirectory :=
  ResourceTable.parse fuel image base_address virtual_address 0 >>= fun root =>
  .ok ⟨virtual_address, root⟩

mutual
/-- A fuel amount sufficient for `ResourceTable.parse` on the tree it was built from. -/
def ResourceTable.parse_fuel : ResourceTable → Nat
  | .mk _ es => es.parse_entries_fuel + 1
def ResourceEntries.parse_entries_fuel : ResourceEntries → Nat
  | .nil => 0
  | .cons _ e rest => max e.entry_parse_fuel rest.parse_entries_fuel + 1
def ResourceEntry.entry_parse_fuel : ResourceEntry → Nat
  | .Table t => t.parse_fuel
  | .Data _ => 0
end

/-! ### Resource entry names as strings
(`ResourceEntryName::{from_string, to_string}`)

Rust `String`s / `&str`s are modeled as their sequences of Unicode scalar values. -/

/-- `char::len_utf8`. -/
def utf8_len (c : Nat) : Nat :=
  if c < 0x80 then 1 else if c < 0x800 then 2 else if c < 0x10000 then 3 else 4

/-- `char::encode_utf16` for one scalar value. -/
def utf16_units (c : Nat) : List Nat :=
  if c < 0x10000 then [c]
  else [0xd800 + (c - 0x10000) / 0x400, 0xdc00 + (c - 0x10000) % 0x400]

/-- `ResourceEntryName::from_string`. Note the source writes `string.len()` — the UTF-8
byte count, truncated to `u16` — as the length field, while the payload holds the UTF-16
code units. -/
def ResourceEntryName.from_string (s : List Nat) : ResourceEntryName :=
  .Name (leBytes 2 ((s.map utf8_len).sum % 2 ^ 16) ++
    (s.flatMap utf16_units).flatMap (leBytes 2))

/-- The character loop of `ResourceEntryName::to_string`, reading `n` UTF-16 units from
`data` starting at unit index `i`. `none` models the panics: the `unwrap` on
`read::<u16>` past the end, and the `unwrap` on `char::from_u32` for surrogate values. -/
def to_string_loop (data : Bytes) : Nat → Nat → Option (List Nat)
  | 0, _ => some []
  | n + 1, i =>
    if i * 2 > data.length then none
    else if data.length - i * 2 < 2 then none
    else
      let c := decodeLE data (i * 2) 2
      if c < 0xd800 ∨ (0xe000 ≤ c ∧ c < 0x110000) then
        (to_string_loop data n (i + 1)).map (fun r => c :: r)
      else none

/-- `ResourceEntryName::to_string`: `none` for ids and for the panicking executions. -/
def ResourceEntryName.to_string : ResourceEntryName → Option (List Nat)
  | .ID _ => none
  | .Name data =>
    if data.length < 2 then none
    else to_string_loop (data.drop 2) (decodeLE data 0 2) 0

end Editpe

namespace Editpe

/-! ### UTF-8 (for the manifest facade)

Rust strings are modeled as their sequences of Unicode scalar values; `str::as_bytes`
is UTF-8 encoding and `String::from_utf8_lossy` is decoding. The decoder below follows
the UTF-8 byte patterns; on byte sequences that are not valid UTF-8 it emits the
replacement character U+FFFD (without reproducing Rust's exact replacement granularity,
which no theorem below depends on: the modeled payloads are valid UTF-8). -/

def utf8_encode_char (c : Nat) : Bytes :=
  if c < 0x80 then [c]
  else if c < 0x800 then [0xc0 + c / 64, 0x80 + c % 64]
  else if c < 0x10000 then [0xe0 + c / 4096, 0x80 + c / 64 % 64, 0x80 + c % 64]
  else [0xf0 + c / 0x40000, 0x80 + c / 4096 % 64, 0x80 + c / 64 % 64, 0x80 + c % 64]

/-- `str::as_bytes` on a string of Unicode scalar values. -/
def utf8_encode (s : List Nat) : Bytes := s.flatMap utf8_encode_char

/-- Is `b` a UTF-8 continuation byte? -/
def utf8_cont (b : Nat) : Bool := 0x80 ≤ b ∧ b < 0xc0

/-- Decoding of a single trailing byte (a truncated sequence): an ASCII byte stands for
itself, anything else is replaced by U+FFFD. -/
def utf8_decode_one (b : Nat) : List Nat := if b < 0x80 then [b] else [0xfffd]

/-- Decoding of exactly two trailing bytes. -/
def utf8_decode_pair (b b1 : Nat) : List Nat :=
  if b < 0x80 then b :: utf8_decode_one b1
  else if b < 0xc0 then 0xfffd :: utf8_decode_one b1
  else if b < 0xe0 then
    if utf8_cont b1 then [(b - 0xc0) * 64 + (b1 - 0x80)] else [0xfffd]
  else 0xfffd :: utf8_decode_one b1

/-- `String::from_utf8_lossy` (see the section comment above; on an invalid multi-byte
sequence the replacement character is emitted and decoding resumes after the consumed
bytes — a simplification of Rust's resynchronization that no theorem depends on). -/
def utf8_decode : Bytes → List Nat
  | [] => []
  | [b] => utf8_decode_one b
  | [b, b1] => utf8_decode_pair b b1
  | b :: b1 :: b2 :: rest =>
    if b < 0x80 then b :: utf8_decode (b1 :: b2 :: rest)
    else if b < 0xc0 then 0xfffd :: utf8_decode (b1 :: b2 :: rest)
    else if b < 0xe0 then
      if utf8_cont b1 then ((b - 0xc0) * 64 + (b1 - 0x80)) :: utf8_decode (b2 :: rest)
      else 0xfffd :: utf8_decode (b2 :: rest)
    else if b < 0xf0 then
      if utf8_cont b1 ∧ utf8_cont b2 then
        ((b - 0xe0) * 4096 + (b1 - 0x80) * 64 + (b2 - 0x80)) :: utf8_decode rest
      else 0xfffd :: utf8_decode rest
    else
      match rest with
      | b3 :: rest4 =>
        if utf8_cont b1 ∧ utf8_cont b2 ∧ utf8_cont b3 then
          ((b - 0xf0) * 0x40000 + (b1 - 0x80) * 4096 + (b2 - 0x80) * 64 + (b3 - 0x80)) ::
            utf8_decode rest4
        else 0xfffd :: utf8_decode rest4
      | [] => 0xfffd :: utf8_decode_pair b1 b2

/-! ### Manifest facade (`ResourceDirectory::{get_manifest, set_manifest}`) -/

/-- The "find the `LANG_EN_US` entry or fall back to the first" selection used by
`get_manifest` (the `.unwrap()` is safe: callers check non-emptiness first). -/
def findLangEntry (es : ResourceEntries) : ResourceEntry :=
  match es.toList.find? (fun p => p.1 == .ID LANGUAGE_ID_EN_US) with
  | some p => p.2
  | none => ((es.toList.head?).getD default).2

/-- `ResourceDirectory::get_manifest`, returning the manifest string (as Unicode scalar
values) if present. -/
def ResourceDirectory.get_manifest (d : ResourceDirectory) :
    Except ResourceError (Option (List Nat)) :=
  match d.root.entries with
  | .nil => .ok none
  | _ =>
    match d.root.get (.ID RT_MANIFEST) with
    | none => .ok none
    | some (.Data _) => .error (.InvalidTable "manifest table is not a table")
    | some (.Table manifest_table) =>
      match manifest_table.entries with
      | .nil => .ok none
      | .cons _ first _ =>
        match first with
        | .Data _ => .error (.InvalidTable "inner manifest table is not a table")
        | .Table inner_table =>
          match inner_table.entries with
          | .nil => .ok none
          | _ =>
            match findLangEntry inner_table.entries with
            | .Table _ => .error (.InvalidTable "manifest table entry is not data")
            | .Data entry => .ok (some (utf8_decode entry.data))

/-- `ResourceDirectory::set_manifest`. The source mutates `self`; the model returns the
updated directory. Note the early `return Ok(())` when the root is empty, which leaves
the directory unchanged. -/
def ResourceDirectory.set_manifest (d : ResourceDirectory) (manifest : List Nat) :
    Except ResourceError ResourceDirectory :=
  match d.root.entries with
  | .nil => .ok d
  | _ =>
    -- ensure the RT_MANIFEST entry exists, then take it as a table
    let afterEnsure :
        Except ResourceError (ResourceTable × ResourceTable) :=
      match d.root.get (.ID RT_MANIFEST) with
      | none => .ok ((d.root.insert (.ID RT_MANIFEST) (.Table ResourceTable.default)).1,
                     ResourceTable.default)
      | some (.Data _) => .error (.InvalidTable "manifest table is not a table")
      | some (.Table t) => .ok (d.root, t)
    afterEnsure.bind fun (root, manifest_table) =>
      -- find (a clone of) the inner table: the first entry if it is a table
      let innerRes : Except ResourceError ResourceTable :=
        match manifest_table.entries with
        | .nil => .ok ResourceTable.default
        | .cons _ (.Table t) _ => .ok t
        | .cons _ (.Data _) _ => .error (.InvalidTable "inner manifest table is not a table")
      innerRes.bind fun inner_table =>
        let inner_table :=
          (inner_table.insert_at (.ID LANGUAGE_ID_EN_US)
            (.Data { data := utf8_encode manifest, codepage := CODE_PAGE_ID_EN_US
                     reserved := 0 }) 0).1
        let manifest_table := (manifest_table.insert_at (.ID 1) (.Table inner_table) 0).1
        -- write back through the `get_mut` borrow: replace the value in place
        let root := ResourceTable.mk root.data
          (root.entries.insertMap (.ID RT_MANIFEST) (.Table manifest_table)).1
        .ok { d with root := root }

end Editpe

namespace Editpe

/-! ### The image model (`image.rs`) -/

/-- `image::DataDirectoryType`. -/
inductive DataDirectoryType where
  | ExportTable
  | ImportTable
  | ResourceTable
  | ExceptionTable
  | CertificateTable
  | BaseRelocationTable
  | Debug
  | Architecture
  | GlobalPtr
  | TLSTable
  | LoadConfigTable
  | BoundImport
  | IAT
  | DelayImportDescriptor
  | CLRRuntimeHeader
  | Reserved
deriving Repr, DecidableEq

/-- The canonical enumeration order of the data-directory array, with indices. -/
def DD_TYPES : List (Nat × DataDirectoryType) :=
  [(0, .ExportTable), (1, .ImportTable), (2, .ResourceTable), (3, .ExceptionTable),
   (4, .CertificateTable), (5, .BaseRelocationTable), (6, .Debug), (7, .Architecture),
   (8, .GlobalPtr), (9, .TLSTable), (10, .LoadConfigTable), (11, .BoundImport),
   (12, .IAT), (13, .DelayImportDescriptor), (14, .CLRRuntimeHeader), (15, .Reserved)]

/-- `IndexMap::get` on the data-directory map. -/
def assocGet [DecidableEq κ] : List (κ × ν) → κ → Option ν
  | [], _ => none
  | (k, v) :: rest, key => if k = key then some v else assocGet rest key

/-- `IndexMap::insert` on the data-directory map: replace in place, or append. -/
def assocInsert [DecidableEq κ] : List (κ × ν) → κ → ν → List (κ × ν) × Option ν
  | [], key, val => ([(key, val)], none)
  | (k, v) :: rest, key, val =>
    if k = key then ((key, val) :: rest, some v)
    else
      let (rest', old) := assocInsert rest key val
      ((k, v) :: rest', old)

/-- `image::Image` (the `Cow` byte buffer plus the parsed snapshots and retained
offsets). -/
structure Image where
  image : Bytes
  pe_dos_magic : Nat
  pe_signature : Nat
  coff_header : CoffHeader
  standard_header : StandardHeader
  windows_header : GenericWindowsHeader
  header_data_directory : List (DataDirectoryType × ImageDataDirectory)
  section_table : List SectionHeader
  resource_directory : Option ResourceDirectory
  coff_header_offset : Nat
  optional_header_dd_offset : Nat
  directories_offset : Nat
deriving Repr, DecidableEq

/-- The data-directory loop of `Image::parse`: for each canonical kind whose index is
below `number_of_rva_and_sizes`, read an 8-byte entry and insert it in order. -/
def readDataDirectories (bs : Bytes) (ddoff n : Nat) :
    List (Nat × DataDirectoryType) → PRes (List (DataDirectoryType × ImageDataDirectory))
  | [] => .ok []
  | (index, header) :: rest =>
    if index < n then
      read_ImageDataDirectory bs (ddoff + 8 * index) >>= fun data =>
      readDataDirectories bs ddoff n rest >>= fun r =>
      .ok ((header, data) :: r)
    else readDataDirectories bs ddoff n rest

/-- The section-table loop of `Image::parse`: read `n` 40-byte headers starting at
index `index`. -/
def readSections (bs : Bytes) (section_table_offset : Nat) :
    Nat → Nat → PRes (List SectionHeader)
  | _, 0 => .ok []
  | index, n + 1 =>
    read_SectionHeader bs (section_table_offset + 40 * index) >>= fun s =>
    readSections bs section_table_offset (index + 1) n >>= fun r =>
    .ok (s :: r)

/-- The resource-directory scan of `Image::parse`: every section covering the resource
data directory's RVA re-parses the tree (the last match wins; errors propagate). -/
def findResourceDirectory (fuel : Nat) (image : Bytes) (rd : ImageDataDirectory) :
    List SectionHeader → Option ResourceDirectory → PRes (Option ResourceDirectory)
  | [], acc => .ok acc
  | s :: rest, acc =>
    if s.virtual_address ≤ rd.virtual_address ∧
        rd.virtual_address < s.virtual_address + s.virtual_size then
      ResourceDirectory.parse fuel image s.pointer_to_raw_data s.virtual_address
        >>= fun dir =>
      findResourceDirectory fuel image rd rest (some dir)
    else findResourceDirectory fuel image rd rest acc

/-- `Image::parse`. `fuel` bounds the resource-tree recursion depth (see
`ResourceTable.parse`); all header logic is independent of it. -/
def Image.parse (fuel : Nat) (image : Bytes) : PRes Image :=
  readUN image 0 2 >>= fun pe_dos_magic =>
  if pe_dos_magic ≠ PE_DOS_MAGIC then .err (.InvalidHeader "no dos magic")
  else
  readUN image PE_PTR_OFFSET 4 >>= fun pe_signature_offset =>
  readUN image pe_signature_offset 4 >>= fun pe_signature =>
  if pe_signature ≠ PE_NT_SIGNATURE then .err (.InvalidHeader "no pe signature")
  else
  let coff_header_offset := pe_signature_offset + 4
  read_CoffHeader image coff_header_offset >>= fun coff_header =>
  if coff_header.size_of_optional_header < 24 then
    .err (.InvalidHeader "optional header too small")
  else
  let standard_header_offset := coff_header_offset + 20
  read_StandardHeader image standard_header_offset >>= fun standard_header =>
  (if standard_header.magic = PE_32_MAGIC ∧ coff_header.size_of_optional_header ≥ 96 then
    read_WindowsHeader32 image (standard_header_offset + 28) >>= fun wh =>
    .ok (GenericWindowsHeader.WindowsHeader32 wh, wh.number_of_rva_and_sizes,
      standard_header_offset + 96)
  else if standard_header.magic = PE_64_MAGIC ∧ coff_header.size_of_optional_header ≥ 112 then
    read_WindowsHeader64 image (standard_header_offset + 24) >>= fun wh =>
    .ok (GenericWindowsHeader.WindowsHeader64 wh, wh.number_of_rva_and_sizes,
      standard_header_offset + 112)
  else .err (.InvalidHeader "invalid optional header")) >>= fun (windows_header,
    number_of_rva_and_sizes, optional_header_dd_offset) =>
  if image.length ≤ optional_header_dd_offset then
    .err (.InvalidHeader "image truncated after optional header")
  else
  readDataDirectories image optional_header_dd_offset number_of_rva_and_sizes DD_TYPES
    >>= fun header_data_directory =>
  let section_table_offset := standard_header_offset + coff_header.size_of_optional_header
  readSections image section_table_offset 0 coff_header.number_of_sections
    >>= fun section_table =>
  let directories_offset := section_table_offset + coff_header.number_of_sections * 40
  (match assocGet header_data_directory .ResourceTable with
   | some resource_data =>
      if resource_data.virtual_address > 0 ∧ resource_data.size > 0 then
        findResourceDirectory fuel image resource_data section_table none
      else .ok none
   | none => .ok none) >>= fun resource_directory =>
  .ok {
    image := image
    pe_dos_magic := pe_dos_magic
    pe_signature := pe_signature
    coff_header := coff_header
    standard_header := standard_header
    windows_header := windows_header
    header_data_directory := header_data_directory
    section_table := section_table
    resource_directory := resource_directory
    coff_header_offset := coff_header_offset
    optional_header_dd_offset := optional_header_dd_offset
    directories_offset := directories_offset }

end Editpe

namespace Editpe

/-- `".pedata\0"` as a little-endian `u64`. -/
def PEDATA_NAME : Nat := 0x006174616465702e

/-- The loop of `Image::set_resource_directory` that ensures the first three
data-directory entries (`ExportTable`, `ImportTable`, `ResourceTable`) exist, counting 8
bytes of required header space per inserted entry. -/
def ensure_data_directories :
    List (DataDirectoryType × ImageDataDirectory) → Nat →
    List (Nat × DataDirectoryType) →
    List (DataDirectoryType × ImageDataDirectory) × Nat
  | hdd, req, [] => (hdd, req)
  | hdd, req, (index, header) :: rest =>
    if index + 1 > hdd.length then
      ensure_data_directories (assocInsert hdd header ImageDataDirectory.default).1
        (req + 8) rest
    else ensure_data_directories hdd req rest

/-- `Iterator::min_by_key` (ties: the first element wins). -/
def minByKey (f : α → Nat) : List α → Option α
  | [] => none
  | x :: xs =>
    match minByKey f xs with
    | none => some x
    | some y => if f x ≤ f y then some x else some y

/-- `Iterator::max_by_key` (ties: the last element wins). -/
def maxByKey (f : α → Nat) : List α → Option α
  | [] => none
  | x :: xs =>
    match maxByKey f xs with
    | none => some x
    | some y => if f x > f y then some x else some y

/-- The body of `Image::set_resource_directory` (source lines 294–609), translated
statement by statement. The source copies every header it will modify into locals first
("copy to-be-modified data to allow erroring out without invalidating the image"),
performs all fallible work, and writes `self` only at the very end (lines 600–607); the
translation accordingly computes the updated image functionally and returns it together
with the previous resource directory. -/
def Image.set_resource_directory_run (self : Image)
    (resource_directory : ResourceDirectory) :
    WRes (Image × Option ResourceDirectory) := do
  let coff_header := self.coff_header
  let windows_header := self.windows_header
  let header_data_directory := self.header_data_directory
  let section_table := self.section_table
  -- ensure that the data directory entry for the resource table exists
  let (header_data_directory, required_header_space) :=
    ensure_data_directories header_data_directory 0
      [(0, .ExportTable), (1, .ImportTable), (2, .ResourceTable)]
  let old_resource_data_directory ←
    match assocGet header_data_directory .ResourceTable with
    | some v => pure v
    | none => (.panic : WRes ImageDataDirectory)     -- `.unwrap()`
  let new_resource_directory_size := resource_directory.size
  let new_resource_directory_size_aligned :=
    aligned_to resource_directory.size windows_header.section_alignment
  let new_image_start ← sliceRange self.image 0 self.coff_header_offset
  let first_section := minByKey (fun s => s.pointer_to_raw_data)
    (section_table.filter (fun s => decide (s.size_of_raw_data > 0)))
  let first_section_start :=
    (first_section.map (fun s => s.pointer_to_raw_data)).getD self.image.length
  let last_section := maxByKey (fun s => s.pointer_to_raw_data + s.size_of_raw_data)
    (section_table.filter (fun s => decide (s.size_of_raw_data > 0)))
  let last_section_end :=
    (last_section.map (fun s => s.pointer_to_raw_data + s.size_of_raw_data)).getD
      self.image.length
  if last_section_end > self.image.length then
    .err (.InvalidSectionRange last_section_end self.image.length)
  else do
  -- search for the section containing the resource directory
  let old_idx : Option Nat :=
    if old_resource_data_directory.size > 0 then
      section_table.findIdx? (fun s =>
        decide (s.virtual_address ≤ old_resource_data_directory.virtual_address) &&
        decide (old_resource_data_directory.virtual_address <
          s.virtual_address + s.virtual_size))
    else none
  let old_resource_section_start :=
    match old_idx with
    | some i => (section_table.getD i SectionHeader.default).pointer_to_raw_data
    | none => 0
  let old_resource_section_end :=
    match old_idx with
    | some i =>
      (section_table.getD i SectionHeader.default).pointer_to_raw_data +
        (section_table.getD i SectionHeader.default).size_of_raw_data
    | none => 0
  -- placement decision over the existing resource section, if any
  let step ← (match old_idx with
    | none =>
      pure (true, section_table, header_data_directory, ([] : Bytes))
    | some i => do
      let oldSec := section_table.getD i SectionHeader.default
      let last ← match last_section with
        | some l => pure l
        | none => (.panic : WRes SectionHeader)      -- `last_section.unwrap()`
      let is_last_section :=
        last.pointer_to_raw_data + last.size_of_raw_data =
          oldSec.pointer_to_raw_data + oldSec.size_of_raw_data
      let add0 : Bool :=
        if oldSec.size_of_raw_data ≥ new_resource_directory_size then false
        else if is_last_section then false
        else true
      if add0 then pure (true, section_table, header_data_directory, ([] : Bytes))
      else
        -- check for other data directories also using the resource section
        let multiple_data_directories := header_data_directory.any (fun p =>
          decide (p.1 ≠ DataDirectoryType.ResourceTable) &&
          decide (oldSec.virtual_address ≤ p.2.virtual_address) &&
          decide (p.2.virtual_address < oldSec.virtual_address + oldSec.virtual_size))
        if multiple_data_directories then
          pure (true, section_table, header_data_directory, ([] : Bytes))
        else
          if old_resource_data_directory.size ≥ new_resource_directory_size then
            let resource_section_data :=
              resource_directory.build old_resource_data_directory.virtual_address
            if ¬ is_last_section ∧
                oldSec.size_of_raw_data > new_resource_directory_size then do
              -- pad the section to the previous section size with existing data
              let pad ← sliceRange self.image
                (oldSec.pointer_to_raw_data + new_resource_directory_size)
                (oldSec.pointer_to_raw_data + oldSec.size_of_raw_data)
              pure (false, section_table, header_data_directory,
                resource_section_data ++ pad)
            else if oldSec.size_of_raw_data > new_resource_directory_size then
              -- the section is last and shrinks: truncate
              let header_data_directory := (assocInsert header_data_directory
                .ResourceTable
                { old_resource_data_directory with
                  size := new_resource_directory_size }).1
              let oldSec' := { oldSec with
                size_of_raw_data := new_resource_directory_size
                virtual_size := new_resource_directory_size_aligned }
              pure (false, section_table.set i oldSec', header_data_directory,
                resource_section_data)
            else
              pure (false, section_table, header_data_directory, resource_section_data)
          else
            -- the section is last and the directory grew: expand
            let resource_section_data :=
              resource_directory.build old_resource_data_directory.virtual_address
            let header_data_directory := (assocInsert header_data_directory
              .ResourceTable
              { old_resource_data_directory with
                size := new_resource_directory_size }).1
            -- `size_of_raw_data += new_size - size_of_raw_data` (assigned first), then
            -- `virtual_size += aligned_to(new_size - size_of_raw_data, alignment)`
            let raw' := oldSec.size_of_raw_data +
              (new_resource_directory_size - oldSec.size_of_raw_data)
            let vsize' := oldSec.virtual_size +
              aligned_to (new_resource_directory_size - raw')
                windows_header.section_alignment
            let oldSec' := { oldSec with
              size_of_raw_data := raw', virtual_size := vsize' }
            pure (false, section_table.set i oldSec', header_data_directory,
              resource_section_data))
  let (add_new_section, section_table, header_data_directory, resource_section_data) :=
    step
  -- append a fresh `.pedata` section when required
  let addStep ← (if add_new_section then do
      let resource_section_data ← (match old_idx with
        | some i => do
          -- keep a copy of the old section data that other directories may reference
          let oldSec := section_table.getD i SectionHeader.default
          let oldData ← sliceRange self.image oldSec.pointer_to_raw_data
            (oldSec.pointer_to_raw_data + oldSec.size_of_raw_data)
          pure (resource_section_data ++ oldData)
        | none => pure resource_section_data)
      let virtual_address :=
        match maxByKey (fun s => s.virtual_address + s.virtual_size) section_table with
        | some l => l.virtual_address + l.virtual_size
        | none => windows_header.section_alignment
      let virtual_address := aligned_to virtual_address windows_header.section_alignment
      let header_data_directory := (assocInsert header_data_directory .ResourceTable
        { virtual_address := virtual_address, size := new_resource_directory_size }).1
      let pointer_to_raw_data :=
        match last_section with
        | some l => l.pointer_to_raw_data + l.size_of_raw_data
        | none => self.directories_offset
      let new_section : SectionHeader :=
        { SectionHeader.default with
          name := PEDATA_NAME
          virtual_size := new_resource_directory_size_aligned
          virtual_address := virtual_address
          size_of_raw_data := new_resource_directory_size
          pointer_to_raw_data := pointer_to_raw_data
          characteristics := IMAGE_SCN_CNT_INITIALIZED_DATA ||| IMAGE_SCN_MEM_READ }
      let new_section_data := resource_directory.build virtual_address
      pure ({ coff_header with
          number_of_sections := coff_header.number_of_sections + 1 },
        section_table ++ [new_section], header_data_directory, resource_section_data,
        new_section_data, required_header_space + 40)
    else
      pure (coff_header, section_table, header_data_directory, resource_section_data,
        ([] : Bytes), required_header_space))
  let (coff_header, section_table, header_data_directory, resource_section_data,
      new_section_data, required_header_space) := addStep
  -- `available_space = first_section_start - directories_offset` (usize subtraction:
  -- an underflow is a panic)
  if self.directories_offset > first_section_start then (.panic : WRes _)
  else do
  let available_space := first_section_start - self.directories_offset
  if required_header_space > available_space then .err .NotEnoughSpaceInHeader
  else do
  let windows_header :=
    match windows_header with
    | .WindowsHeader32 h => GenericWindowsHeader.WindowsHeader32
        { h with number_of_rva_and_sizes := header_data_directory.length
                 size_of_image := h.size_of_image + new_section_data.length
                 check_sum := 0 }
    | .WindowsHeader64 h => GenericWindowsHeader.WindowsHeader64
        { h with number_of_rva_and_sizes := header_data_directory.length
                 size_of_image := h.size_of_image + new_section_data.length
                 check_sum := 0 }
  let headerGap ← sliceRange self.image
    (self.directories_offset + required_header_space) first_section_start
  let middle ← (if old_resource_section_start > 0 then do
      -- a resource section was found: copy the data of the sections around it
      let pre ← sliceRange self.image first_section_start old_resource_section_start
      let post ← sliceRange self.image old_resource_section_end last_section_end
      pure (pre ++ resource_section_data ++ post)
    else
      -- no resource section was found: copy the data of all sections
      sliceRange self.image first_section_start last_section_end)
  let overlay ← sliceRange self.image last_section_end self.image.length
  let new_image :=
    new_image_start ++ coff_header.as_bytes ++ self.standard_header.as_bytes ++
    windows_header.as_bytes ++
    (header_data_directory.flatMap (fun p => p.2.as_bytes)) ++
    (section_table.flatMap SectionHeader.as_bytes) ++
    headerGap ++ middle ++ new_section_data ++ overlay
  pure ({ self with
      image := new_image
      coff_header := coff_header
      windows_header := windows_header
      header_data_directory := header_data_directory
      section_table := section_table
      resource_directory := some resource_directory },
    self.resource_directory)

/-- `Image::set_resource_directory` as a state transformer: the first component is the
`Image` as left by the call (the source writes `self` only after every fallible step has
succeeded, so on an error or panic the image is the one passed in). -/
def Image.set_resource_directory (self : Image)
    (resource_directory : ResourceDirectory) :
    Image × WRes (Option ResourceDirectory) :=
  match Image.set_resource_directory_run self resource_directory with
  | .ok (updated, previous) => (updated, .ok previous)
  | .err e => (self, .err e)
  | .panic => (self, .panic)

end Editpe

namespace Editpe

/-! ### Proof infrastructure: bit-level facts -/

theorem lor_two_pow {a n : Nat} (h : a < 2 ^ n) : a ||| 2 ^ n = a + 2 ^ n := by
  have := Nat.mul_add_lt_is_or h 1
  simp only [Nat.mul_one] at this
  rw [Nat.lor_comm, ← this, Nat.add_comm]

theorem xor_two_pow_recover {a n : Nat} (h : a < 2 ^ n) : (a + 2 ^ n) ^^^ 2 ^ n = a := by
  apply Nat.eq_of_testBit_eq
  intro i
  rw [Nat.testBit_xor]
  rcases lt_trichotomy i n with hi | rfl | hi
  · rw [Nat.testBit_two_pow_of_ne (by omega), Nat.add_comm,
      Nat.testBit_two_pow_add_gt hi]
    simp
  · rw [Nat.testBit_two_pow_self, Nat.add_comm, Nat.testBit_two_pow_add_eq,
      Nat.testBit_lt_two_pow h]
    simp [Nat.testBit_lt_two_pow h]
  · have h1 : a + 2 ^ n < 2 ^ i := by
      have h2 : 2 ^ (n + 1) ≤ 2 ^ i := Nat.pow_le_pow_right (by omega) (by omega)
      have h3 : a + 2 ^ n < 2 ^ (n + 1) := by
        have : 2 ^ (n + 1) = 2 ^ n + 2 ^ n := by ring
        omega
      omega
    have h4 : a < 2 ^ i := by omega
    rw [Nat.testBit_lt_two_pow h1, Nat.testBit_two_pow_of_ne (by omega),
      Nat.testBit_lt_two_pow h4]
    simp

theorem and_two_pow_of_add {a n : Nat} (h : a < 2 ^ n) :
    (a + 2 ^ n) &&& 2 ^ n = 2 ^ n := by
  rw [Nat.and_two_pow, Nat.add_comm, Nat.testBit_two_pow_add_eq,
    Nat.testBit_lt_two_pow h]
  simp

theorem and_two_pow_of_lt {a n : Nat} (h : a < 2 ^ n) : a &&& 2 ^ n = 0 := by
  rw [Nat.and_two_pow, Nat.testBit_lt_two_pow h]
  simp

theorem and_mask_ne_of_lt {a m : Nat} (h : a < m) : a &&& m ≠ m := by
  have := Nat.and_le_left (n := a) (m := m)
  omega

/-- The constant `0x80000000` is `2 ^ 31`. -/
theorem hi_bit_eq : (0x80000000 : Nat) = 2 ^ 31 := by norm_num

/-! ### Proof infrastructure: little-endian encode/decode -/

@[simp] theorem leBytes_length (w v : Nat) : (leBytes w v).length = w := by
  induction w generalizing v with
  | zero => rfl
  | succ w ih => simp [leBytes, ih]

theorem decodeLE_cons_succ (x : Nat) (bs : Bytes) (off w : Nat) :
    decodeLE (x :: bs) (off + 1) w = decodeLE bs off w := by
  induction w generalizing off with
  | zero => rfl
  | succ w ih => simp [decodeLE, ih]

theorem decodeLE_leBytes (w v : Nat) : decodeLE (leBytes w v) 0 w = v % 2 ^ (8 * w) := by
  induction w generalizing v with
  | zero => simp [decodeLE, leBytes, Nat.mod_one]
  | succ w ih =>
    show decodeLE (v % 256 :: leBytes w (v / 256)) 0 (w + 1) = _
    rw [decodeLE]
    simp only [List.getD_cons_zero]
    rw [show (0 + 1) = 1 from rfl, decodeLE_cons_succ, ih]
    have h2 : 2 ^ (8 * (w + 1)) = 256 * 2 ^ (8 * w) := by
      have h256 : (256 : Nat) = 2 ^ 8 := by norm_num
      rw [h256, ← pow_add]
      ring_nf
    rw [h2, Nat.mod_mul]

end Editpe

namespace Editpe

/-! ### Proof infrastructure: byte segments inside a buffer -/

/-- `seg` occurs in `img` starting at offset `pos`. -/
def Covers (img : Bytes) (pos : Nat) (seg : Bytes) : Prop :=
  pos + seg.length ≤ img.length ∧ ∀ i, i < seg.length → img.getD (pos + i) 0 = seg.getD i 0

theorem Covers.length_le {img : Bytes} {pos : Nat} {seg : Bytes} (h : Covers img pos seg) :
    pos + seg.length ≤ img.length := h.1

theorem Covers_append {img : Bytes} {pos : Nat} {a b : Bytes} :
    Covers img pos (a ++ b) ↔ Covers img pos a ∧ Covers img (pos + a.length) b := by
  constructor
  · rintro ⟨hlen, hval⟩
    simp only [List.length_append] at hlen hval
    refine ⟨⟨by omega, fun i hi => ?_⟩, ⟨by omega, fun i hi => ?_⟩⟩
    · rw [hval i (by omega), List.getD_append _ _ _ _ hi]
    · have := hval (a.length + i) (by omega)
      rw [show pos + (a.length + i) = pos + a.length + i by omega] at this
      rw [this]
      rw [List.getD_append_right _ _ _ _ (by omega)]
      congr 1
      omega
  · rintro ⟨⟨hla, hva⟩, ⟨hlb, hvb⟩⟩
    refine ⟨by simp only [List.length_append]; omega, fun i hi => ?_⟩
    simp only [List.length_append] at hi
    rcases Nat.lt_or_ge i a.length with hlt | hge
    · rw [hva i hlt, List.getD_append _ _ _ _ hlt]
    · have := hvb (i - a.length) (by omega)
      rw [show pos + a.length + (i - a.length) = pos + i by omega] at this
      rw [this, List.getD_append_right _ _ _ _ hge]

theorem Covers_nil {img : Bytes} {pos : Nat} (h : pos ≤ img.length) :
    Covers img pos [] := ⟨by simpa using h, fun i hi => by simp at hi⟩

theorem Covers.mono_head {img : Bytes} {pos : Nat} {seg : Bytes} (h : Covers img pos seg) :
    pos ≤ img.length := by
  have := h.1; omega

/-- Transfer a little-endian read through a `Covers` fact. -/
theorem Covers.decodeLE_eq {img : Bytes} {pos : Nat} {seg : Bytes} (h : Covers img pos seg)
    {w : Nat} (hw : w ≤ seg.length) : decodeLE img pos w = decodeLE seg 0 w := by
  obtain ⟨hlen, hval⟩ := h
  have main : ∀ w' off, off + w' ≤ seg.length →
      decodeLE img (pos + off) w' = decodeLE seg off w' := by
    intro w'
    induction w' with
    | zero => intro off _; rfl
    | succ w' ih =>
      intro off hoff
      rw [decodeLE, decodeLE, hval off (by omega),
        show pos + off + 1 = pos + (off + 1) by omega, ih (off + 1) (by omega)]
  have := main w 0 (by omega)
  simpa using this

/-- Transfer `readUN` through a `Covers` fact for an exact `leBytes` chunk. -/
theorem Covers.readUN_eq {img : Bytes} {pos w v : Nat}
    (h : Covers img pos (leBytes w v)) : readUN img pos w = .ok (v % 2 ^ (8 * w)) := by
  have hlen := h.1
  rw [leBytes_length] at hlen
  rw [readUN, if_neg (by omega), if_neg (by omega)]
  rw [h.decodeLE_eq (by rw [leBytes_length]), decodeLE_leBytes]

/-- Transfer an exact-chunk slice through a `Covers` fact. -/
theorem Covers.slice_eq {img : Bytes} {pos : Nat} {seg : Bytes} (h : Covers img pos seg) :
    sliceRange img pos (pos + seg.length) = (.ok seg : Res ε Bytes) := by
  obtain ⟨hlen, hval⟩ := h
  rw [sliceRange, if_pos ⟨by omega, hlen⟩]
  congr 1
  apply List.ext_getElem
  · simp only [List.length_take, List.length_drop]
    omega
  · intro i hi1 hi2
    have hlt : i < seg.length := by simpa using hi2
    have himg : pos + i < img.length := by omega
    have h1 := hval i hlt
    rw [List.getD_eq_getElem _ _ himg, List.getD_eq_getElem _ _ hlt] at h1
    simp only [List.getElem_take, List.getElem_drop]
    convert h1 using 2

theorem covers_refl (a : Bytes) : Covers a 0 a :=
  ⟨by simp, fun i hi => by rw [Nat.zero_add]⟩

/-- A buffer covers its own prefix. -/
theorem covers_self_append (a b : Bytes) : Covers (a ++ b) 0 a :=
  ⟨by simp, fun i hi => by rw [Nat.zero_add, List.getD_append _ _ _ _ hi]⟩

end Editpe

namespace Editpe

/-! ### Proof infrastructure: auxiliary measures over entry lists -/

/-- Concatenation of ordered entry sequences. -/
def ResourceEntries.append : ResourceEntries → ResourceEntries → ResourceEntries
  | .nil, es => es
  | .cons n e rest, es => .cons n e (rest.append es)

/-- The keys of an entry sequence. -/
def ResourceEntries.keys : ResourceEntries → List ResourceEntryName
  | .nil => []
  | .cons n _ rest => n :: rest.keys

/-- Number of name-keyed entries at this level. -/
def ResourceEntries.countNames : ResourceEntries → Nat
  | .nil => 0
  | .cons n _ rest => (if n.string_size > 0 then 1 else 0) + rest.countNames

/-- Number of id-keyed entries at this level. -/
def ResourceEntries.countIds : ResourceEntries → Nat
  | .nil => 0
  | .cons n _ rest => (if n.string_size > 0 then 0 else 1) + rest.countIds

/-- Total size of the name strings at this level only. -/
def ResourceEntries.own_names_size : ResourceEntries → Nat
  | .nil => 0
  | .cons n _ rest => n.string_size + rest.own_names_size

/-- Total size of the data descriptors at this level only. -/
def ResourceEntries.own_descriptions_size : ResourceEntries → Nat
  | .nil => 0
  | .cons _ (.Data _) rest => 16 + rest.own_descriptions_size
  | .cons _ (.Table _) rest => rest.own_descriptions_size

/-- Total size of the leaf payloads at this level only. -/
def ResourceEntries.own_data_size : ResourceEntries → Nat
  | .nil => 0
  | .cons _ (.Data d) rest => d.data.length + rest.own_data_size
  | .cons _ (.Table _) rest => rest.own_data_size

/-- Total tables size of the immediate sub-tables. -/
def ResourceEntries.child_tables_size : ResourceEntries → Nat
  | .nil => 0
  | .cons _ (.Table t) rest => t.tables_size + rest.child_tables_size
  | .cons _ (.Data _) rest => rest.child_tables_size

/-- Total strings size of the immediate sub-tables. -/
def ResourceEntries.child_strings_size : ResourceEntries → Nat
  | .nil => 0
  | .cons _ (.Table t) rest => t.strings_size + rest.child_strings_size
  | .cons _ (.Data _) rest => rest.child_strings_size

/-- Total descriptions size of the immediate sub-tables. -/
def ResourceEntries.child_descriptions_size : ResourceEntries → Nat
  | .nil => 0
  | .cons _ (.Table t) rest => t.descriptions_size + rest.child_descriptions_size
  | .cons _ (.Data _) rest => rest.child_descriptions_size

/-- Total data size of the immediate sub-tables. -/
def ResourceEntries.child_data_size : ResourceEntries → Nat
  | .nil => 0
  | .cons _ (.Table t) rest => t.data_size + rest.child_data_size
  | .cons _ (.Data _) rest => rest.child_data_size

theorem tables_size_sum_eq : (es : ResourceEntries) →
    es.tables_size_sum = 8 * es.length + es.child_tables_size
  | .nil => rfl
  | .cons _ (.Table t) rest => by
    have ih := tables_size_sum_eq rest
    simp [ResourceEntries.tables_size_sum, ResourceEntry.table_size,
      ResourceEntries.child_tables_size, ResourceEntries.length, ih]
    ring
  | .cons _ (.Data d) rest => by
    have ih := tables_size_sum_eq rest
    simp [ResourceEntries.tables_size_sum, ResourceEntry.table_size,
      ResourceEntries.child_tables_size, ResourceEntries.length, ih]
    ring
termination_by structural es => es

theorem strings_size_sum_eq : (es : ResourceEntries) →
    es.strings_size_sum = es.own_names_size + es.child_strings_size
  | .nil => rfl
  | .cons _ (.Table t) rest => by
    have ih := strings_size_sum_eq rest
    simp [ResourceEntries.strings_size_sum, ResourceEntry.entry_strings_size,
      ResourceEntries.own_names_size, ResourceEntries.child_strings_size, ih]
    ring
  | .cons _ (.Data d) rest => by
    have ih := strings_size_sum_eq rest
    simp [ResourceEntries.strings_size_sum, ResourceEntry.entry_strings_size,
      ResourceEntries.own_names_size, ResourceEntries.child_strings_size, ih]
    ring
termination_by structural es => es

theorem descriptions_size_sum_eq : (es : ResourceEntries) →
    es.descriptions_size_sum = es.own_descriptions_size + es.child_descriptions_size
  | .nil => rfl
  | .cons _ (.Table t) rest => by
    have ih := descriptions_size_sum_eq rest
    simp [ResourceEntries.descriptions_size_sum, ResourceEntry.description_size,
      ResourceEntries.own_descriptions_size, ResourceEntries.child_descriptions_size, ih]
    ring
  | .cons _ (.Data d) rest => by
    have ih := descriptions_size_sum_eq rest
    simp [ResourceEntries.descriptions_size_sum, ResourceEntry.description_size,
      ResourceEntries.own_descriptions_size, ResourceEntries.child_descriptions_size, ih]
    ring
termination_by structural es => es

theorem data_size_sum_eq : (es : ResourceEntries) →
    es.data_size_sum = es.own_data_size + es.child_data_size
  | .nil => rfl
  | .cons _ (.Table t) rest => by
    have ih := data_size_sum_eq rest
    simp [ResourceEntries.data_size_sum, ResourceEntry.entry_data_size,
      ResourceEntries.own_data_size, ResourceEntries.child_data_size, ih]
    ring
  | .cons _ (.Data d) rest => by
    have ih := data_size_sum_eq rest
    simp [ResourceEntries.data_size_sum, ResourceEntry.entry_data_size,
      ResourceEntries.own_data_size, ResourceEntries.child_data_size, ih]
    ring
termination_by structural es => es

end Editpe

namespace Editpe

/-! ### Final running offsets of the builder -/

theorem pass1_snd : (es : ResourceEntries) → ∀ fullLen base va sto deo dao nts,
    (es.pass1 fullLen base va sto deo dao nts).2 =
      (sto + es.own_names_size, deo + es.own_descriptions_size, dao + es.own_data_size)
  | .nil => by
    intro fullLen base va sto deo dao nts
    simp [ResourceEntries.pass1, ResourceEntries.own_names_size,
      ResourceEntries.own_descriptions_size, ResourceEntries.own_data_size]
  | .cons n (.Table t) rest => by
    intro fullLen base va sto deo dao nts
    have ih := pass1_snd rest fullLen base va (sto + n.string_size) deo dao
      (nts + t.tables_size)
    simp [ResourceEntries.pass1, ih, ResourceEntries.own_names_size,
      ResourceEntries.own_descriptions_size, ResourceEntries.own_data_size]
    ring
  | .cons n (.Data d) rest => by
    intro fullLen base va sto deo dao nts
    have ih := pass1_snd rest fullLen base va (sto + n.string_size) (deo + 16)
      (dao + d.data.length) nts
    simp [ResourceEntries.pass1, ih, ResourceEntries.own_names_size,
      ResourceEntries.own_descriptions_size, ResourceEntries.own_data_size]
    refine ⟨by ring, by ring, by ring⟩
termination_by structural es => es

mutual
theorem build_table_snd : (t : ResourceTable) → ∀ va a b c d,
    (t.build_table va a b c d).2 =
      (a + t.tables_size, b + t.strings_size, c + t.descriptions_size, d + t.data_size)
  | .mk hdr es => by
    intro va a b c d
    have h1 := pass1_snd es es.length (a + 16) va b c d 0
    have h2 := pass2_snd es va (a + 16 + 8 * es.length) (b + es.own_names_size)
      (c + es.own_descriptions_size) (d + es.own_data_size)
    simp [ResourceTable.build_table, h1, h2, ResourceTable.tables_size,
      ResourceTable.strings_size, ResourceTable.descriptions_size, ResourceTable.data_size,
      tables_size_sum_eq, strings_size_sum_eq, descriptions_size_sum_eq, data_size_sum_eq]
    refine ⟨by ring, by ring, by ring, by ring⟩
termination_by structural t => t

theorem pass2_snd : (es : ResourceEntries) → ∀ va a b c d,
    (es.pass2 va a b c d).2 =
      (a + es.child_tables_size, b + es.child_strings_size,
        c + es.child_descriptions_size, d + es.child_data_size)
  | .nil => by
    intro va a b c d
    simp [ResourceEntries.pass2, ResourceEntries.child_tables_size,
      ResourceEntries.child_strings_size, ResourceEntries.child_descriptions_size,
      ResourceEntries.child_data_size]
  | .cons n (.Table t) rest => by
    intro va a b c d
    have h1 := build_table_snd t va a b c d
    have h2 := pass2_snd rest va (a + t.tables_size) (b + t.strings_size)
      (c + t.descriptions_size) (d + t.data_size)
    simp [ResourceEntries.pass2, h1, h2, ResourceEntries.child_tables_size,
      ResourceEntries.child_strings_size, ResourceEntries.child_descriptions_size,
      ResourceEntries.child_data_size]
    refine ⟨by ring, by ring, by ring, by ring⟩
  | .cons n (.Data d0) rest => by
    intro va a b c d
    have ih := pass2_snd rest va a b c d
    simp [ResourceEntries.pass2, ih, ResourceEntries.child_tables_size,
      ResourceEntries.child_strings_size, ResourceEntries.child_descriptions_size,
      ResourceEntries.child_data_size]
termination_by structural es => es
end

end Editpe

namespace Editpe

/-! ### Serialized lengths of the builder streams -/

/-- Serialized length of a `tables_data` stream (16 bytes per table header, 8 per
entry). -/
def tdLen : List TableData → Nat
  | [] => 0
  | .Table _ :: r => 16 + tdLen r
  | .Entry _ :: r => 8 + tdLen r

@[simp] theorem RDT_as_bytes_length (t : ResourceDirectoryTable) :
    t.as_bytes.length = 16 := by
  simp [ResourceDirectoryTable.as_bytes]

@[simp] theorem RDE_as_bytes_length (e : ResourceDirectoryEntry) :
    e.as_bytes.length = 8 := by
  simp [ResourceDirectoryEntry.as_bytes]

@[simp] theorem RDataEntry_as_bytes_length (e : ResourceDataEntry) :
    e.as_bytes.length = 16 := by
  simp [ResourceDataEntry.as_bytes]

@[simp] theorem ser_length (a b : Nat) (td : TableData) :
    (TableData.ser a b td).length = match td with | .Table _ => 16 | .Entry _ => 8 := by
  cases td with
  | Table t => simp [TableData.ser]
  | Entry e =>
    simp only [TableData.ser]
    split <;> split <;> simp

theorem serTDlist_length (a b : Nat) (l : List TableData) :
    (serTDlist a b l).length = tdLen l := by
  induction l with
  | nil => rfl
  | cons td r ih =>
    cases td with
    | Table t => simp [serTDlist, tdLen, List.flatMap_cons] at ih ⊢; omega
    | Entry e => simp [serTDlist, tdLen, List.flatMap_cons] at ih ⊢; omega

theorem serDescs_length (k : Nat) (l : List ResourceDataEntry) :
    (serDescs k l).length = 16 * l.length := by
  induction l with
  | nil => rfl
  | cons d r ih => simp [serDescs, List.flatMap_cons] at ih ⊢; omega

theorem serTDlist_append (a b : Nat) (l₁ l₂ : List TableData) :
    serTDlist a b (l₁ ++ l₂) = serTDlist a b l₁ ++ serTDlist a b l₂ := by
  simp [serTDlist]

theorem serDescs_append (k : Nat) (l₁ l₂ : List ResourceDataEntry) :
    serDescs k (l₁ ++ l₂) = serDescs k l₁ ++ serDescs k l₂ := by
  simp [serDescs]

theorem tdLen_append (l₁ l₂ : List TableData) :
    tdLen (l₁ ++ l₂) = tdLen l₁ + tdLen l₂ := by
  induction l₁ with
  | nil => simp [tdLen]
  | cons td r ih => cases td <;> simp [tdLen, ih] <;> omega

@[simp] theorem string_data_length (n : ResourceEntryName) :
    n.string_data.length = n.string_size := by
  cases n <;> rfl

theorem pass1_streams_len : (es : ResourceEntries) →
    ∀ fullLen base va sto deo dao nts,
    tdLen (es.pass1 fullLen base va sto deo dao nts).1.1 = 8 * es.length ∧
    ((es.pass1 fullLen base va sto deo dao nts).1.2.1).length = es.own_names_size ∧
    16 * ((es.pass1 fullLen base va sto deo dao nts).1.2.2.1).length =
      es.own_descriptions_size ∧
    ((es.pass1 fullLen base va sto deo dao nts).1.2.2.2).length = es.own_data_size
  | .nil => by
    intro fullLen base va sto deo dao nts
    simp [ResourceEntries.pass1, tdLen, ResourceEntries.own_names_size,
      ResourceEntries.own_descriptions_size, ResourceEntries.own_data_size,
      ResourceEntries.length]
  | .cons n (.Table t) rest => by
    intro fullLen base va sto deo dao nts
    obtain ⟨ih1, ih2, ih3, ih4⟩ := pass1_streams_len rest fullLen base va
      (sto + n.string_size) deo dao (nts + t.tables_size)
    simp only [ResourceEntries.pass1, tdLen, ResourceEntries.own_names_size,
      ResourceEntries.own_descriptions_size, ResourceEntries.own_data_size,
      ResourceEntries.length, List.length_append, string_data_length]
    refine ⟨by rw [ih1]; ring, by rw [ih2], ih3, ih4⟩
  | .cons n (.Data d) rest => by
    intro fullLen base va sto deo dao nts
    obtain ⟨ih1, ih2, ih3, ih4⟩ := pass1_streams_len rest fullLen base va
      (sto + n.string_size) (deo + 16) (dao + d.data.length) nts
    simp only [ResourceEntries.pass1, tdLen, ResourceEntries.own_names_size,
      ResourceEntries.own_descriptions_size, ResourceEntries.own_data_size,
      ResourceEntries.length, List.length_append, List.length_cons, string_data_length]
    refine ⟨by rw [ih1]; ring, by rw [ih2], by rw [← ih3]; ring, by rw [ih4]⟩
termination_by structural es => es

mutual
theorem build_table_streams_len : (t : ResourceTable) → ∀ va a b c d,
    tdLen (t.build_table va a b c d).1.1 = t.tables_size ∧
    ((t.build_table va a b c d).1.2.1).length = t.strings_size ∧
    16 * ((t.build_table va a b c d).1.2.2.1).length = t.descriptions_size ∧
    ((t.build_table va a b c d).1.2.2.2).length = t.data_size
  | .mk hdr es => by
    intro va a b c d
    obtain ⟨g1, g2, g3, g4⟩ := pass1_streams_len es es.length (a + 16) va b c d 0
    rcases hsnd : (es.pass1 es.length (a + 16) va b c d 0).2 with ⟨b1, c1, d1⟩
    have hb : b1 = b + es.own_names_size ∧ c1 = c + es.own_descriptions_size ∧
        d1 = d + es.own_data_size := by
      have h0 := pass1_snd es es.length (a + 16) va b c d 0
      rw [hsnd] at h0
      exact ⟨congrArg (·.1) h0, congrArg (·.2.1) h0, congrArg (·.2.2) h0⟩
    obtain ⟨rfl, rfl, rfl⟩ := hb
    obtain ⟨h1, h2, h3, h4⟩ := pass2_streams_len es va (a + 16 + 8 * es.length)
      (b + es.own_names_size) (c + es.own_descriptions_size) (d + es.own_data_size)
    simp only [ResourceTable.build_table, hsnd, tdLen, tdLen_append,
      ResourceTable.tables_size, ResourceTable.strings_size,
      ResourceTable.descriptions_size, ResourceTable.data_size, List.length_append,
      List.length_cons, tables_size_sum_eq, strings_size_sum_eq,
      descriptions_size_sum_eq, data_size_sum_eq]
    refine ⟨by rw [g1, h1]; ring, by rw [g2, h2], by linarith [g3, h3],
      by rw [g4, h4]⟩
termination_by structural t => t

theorem pass2_streams_len : (es : ResourceEntries) → ∀ va a b c d,
    tdLen (es.pass2 va a b c d).1.1 = es.child_tables_size ∧
    ((es.pass2 va a b c d).1.2.1).length = es.child_strings_size ∧
    16 * ((es.pass2 va a b c d).1.2.2.1).length = es.child_descriptions_size ∧
    ((es.pass2 va a b c d).1.2.2.2).length = es.child_data_size
  | .nil => by
    intro va a b c d
    simp [ResourceEntries.pass2, tdLen, ResourceEntries.child_tables_size,
      ResourceEntries.child_strings_size, ResourceEntries.child_descriptions_size,
      ResourceEntries.child_data_size]
  | .cons n (.Table t) rest => by
    intro va a b c d
    obtain ⟨g1, g2, g3, g4⟩ := build_table_streams_len t va a b c d
    rcases hsnd : (t.build_table va a b c d).2 with ⟨a1, b1, c1, d1⟩
    have hb : a1 = a + t.tables_size ∧ b1 = b + t.strings_size ∧
        c1 = c + t.descriptions_size ∧ d1 = d + t.data_size := by
      have h0 := build_table_snd t va a b c d
      rw [hsnd] at h0
      exact ⟨congrArg (·.1) h0, congrArg (·.2.1) h0, congrArg (·.2.2.1) h0,
        congrArg (·.2.2.2) h0⟩
    obtain ⟨rfl, rfl, rfl, rfl⟩ := hb
    obtain ⟨h1, h2, h3, h4⟩ := pass2_streams_len rest va (a + t.tables_size)
      (b + t.strings_size) (c + t.descriptions_size) (d + t.data_size)
    simp only [ResourceEntries.pass2, hsnd, tdLen_append,
      ResourceEntries.child_tables_size, ResourceEntries.child_strings_size,
      ResourceEntries.child_descriptions_size, ResourceEntries.child_data_size,
      List.length_append]
    refine ⟨by rw [g1, h1], by rw [g2, h2], by linarith [g3, h3], by rw [g4, h4]⟩
  | .cons n (.Data d0) rest => by
    intro va a b c d
    obtain ⟨h1, h2, h3, h4⟩ := pass2_streams_len rest va a b c d
    simp only [ResourceEntries.pass2, ResourceEntries.child_tables_size,
      ResourceEntries.child_strings_size, ResourceEntries.child_descriptions_size,
      ResourceEntries.child_data_size]
    exact ⟨h1, h2, h3, h4⟩
termination_by structural es => es
end

end Editpe

namespace Editpe

/-- The byte length of `ResourceTable::build` output equals `ResourceTable::size`. -/
theorem build_length (t : ResourceTable) (va : Nat) : (t.build va).length = t.size := by
  obtain ⟨g1, g2, g3, g4⟩ := build_table_streams_len t va 0 0 0 0
  rcases hb : t.build_table va 0 0 0 0 with ⟨⟨td, ss, ds, pp⟩, tbo, sto, deo, dao⟩
  rw [hb] at g1 g2 g3 g4
  simp only at g1 g2 g3 g4
  simp only [ResourceTable.build, hb, List.length_append, serTDlist_length,
    serDescs_length, ResourceTable.size]
  omega

end Editpe

namespace Editpe

/-! ### Facts about the entry-map operations -/

@[simp] theorem toList_ofList (l : List (ResourceEntryName × ResourceEntry)) :
    (ResourceEntries.ofList l).toList = l := by
  induction l with
  | nil => rfl
  | cons p rest ih => cases p; simp [ResourceEntries.ofList, ResourceEntries.toList, ih]

@[simp] theorem ofList_toList : (es : ResourceEntries) →
    ResourceEntries.ofList es.toList = es
  | .nil => rfl
  | .cons n e rest => by
    simp [ResourceEntries.ofList, ResourceEntries.toList, ofList_toList rest]
termination_by structural es => es

theorem findIdx_append_fresh {K V : Type} [DecidableEq K]
    (pre : List (K × V)) (k : K) (v : V) (rest : List (K × V))
    (h : ∀ p ∈ pre, p.1 ≠ k) :
    (pre ++ (k, v) :: rest).findIdx? (fun p => p.1 == k) = some pre.length := by
  induction pre with
  | nil => simp
  | cons q pre' ih =>
    have hq : (q.1 == k) = false := by
      simp only [beq_eq_false_iff_ne]
      exact h q (by simp)
    simp only [List.cons_append, List.findIdx?_cons, hq, if_false, Bool.false_eq_true]
    rw [List.findIdx?_succ, ih (fun p hp => h p (by simp [hp]))]
    simp

theorem set_append_length {α : Type} (pre : List α) (x y : α) (rest : List α) :
    (pre ++ x :: rest).set pre.length y = pre ++ y :: rest := by
  induction pre with
  | nil => simp
  | cons q pre' ih => simp [List.set, ih]

end Editpe

namespace Editpe

/-- C10: for a table whose entry map holds key `k` at index `i` (here: after the fresh
prefix `pre`) with at least one entry stored after it (here: `mid ++ [kl]`),
`ResourceTable::remove k` returns the removed entry and moves the pair that was at the
last index into index `i` — a swap-remove, so the relative insertion order of the
remaining entries is not preserved in general. -/
theorem C10_remove_swap_semantics
    (hdr : ResourceDirectoryTable) (pre mid : List (ResourceEntryName × ResourceEntry))
    (k : ResourceEntryName) (v : ResourceEntry) (kl : ResourceEntryName × ResourceEntry)
    (hfresh : ∀ p ∈ pre, p.1 ≠ k) :
    ((ResourceTable.mk hdr (.ofList (pre ++ (k, v) :: (mid ++ [kl])))).remove k).2 =
      some v ∧
    ((ResourceTable.mk hdr (.ofList (pre ++ (k, v) :: (mid ++ [kl])))).remove k).1.entries =
      .ofList (pre ++ kl :: mid) := by
  have hfind := findIdx_append_fresh pre k v (mid ++ [kl]) hfresh
  have hgetD : (pre ++ (k, v) :: (mid ++ [kl])).getD pre.length default = (k, v) := by
    rw [List.getD_append_right _ _ _ _ (Nat.le_refl _)]
    simp
  have hlast : (pre ++ (k, v) :: (mid ++ [kl])).getLast? = some kl := by
    rw [show pre ++ (k, v) :: (mid ++ [kl]) = (pre ++ (k, v) :: mid) ++ [kl] by simp]
    exact List.getLast?_concat _
  have hset : ((pre ++ (k, v) :: (mid ++ [kl])).set pre.length kl).dropLast =
      pre ++ kl :: mid := by
    rw [set_append_length]
    rw [show pre ++ kl :: (mid ++ [kl]) = (pre ++ kl :: mid) ++ [kl] by simp]
    exact List.dropLast_concat
  simp only [ResourceTable.remove, ResourceEntries.swapRemoveMap, ResourceTable.entries,
    toList_ofList, hfind, hgetD, hlast, Option.getD_some, hset]
  exact ⟨trivial, trivial⟩

/-- Witness for C10 at a concrete three-entry table. -/
theorem C10_remove_swap_semantics_witness :
    ((ResourceTable.mk ResourceDirectoryTable.default
        (.ofList [(.ID 1, .Data ResourceData.default),
                  (.ID 2, .Data ⟨[7], 0, 0⟩),
                  (.ID 3, .Data ⟨[9], 0, 0⟩)])).remove (.ID 1)).2 =
      some (.Data ResourceData.default) ∧
    ((ResourceTable.mk ResourceDirectoryTable.default
        (.ofList [(.ID 1, .Data ResourceData.default),
                  (.ID 2, .Data ⟨[7], 0, 0⟩),
                  (.ID 3, .Data ⟨[9], 0, 0⟩)])).remove (.ID 1)).1.entries =
      .ofList [(.ID 3, .Data ⟨[9], 0, 0⟩), (.ID 2, .Data ⟨[7], 0, 0⟩)] :=
  C10_remove_swap_semantics ResourceDirectoryTable.default []
    [(.ID 2, .Data ⟨[7], 0, 0⟩)] (.ID 1) (.Data ResourceData.default)
    (.ID 3, .Data ⟨[9], 0, 0⟩) (by intro p hp; simp at hp)

end Editpe

namespace Editpe

/-! ### C8: `from_string` / `to_string` -/

theorem to_string_loop_ascii (s : List Nat) (hs : ∀ c ∈ s, c < 0x80) :
    ∀ (pre : Bytes) (i : Nat), pre.length = 2 * i →
    to_string_loop (pre ++ s.flatMap (fun c => [c, 0])) s.length i = some s := by
  induction s with
  | nil =>
    intro pre i hlen
    simp [to_string_loop]
  | cons c s' ih =>
    intro pre i hlen
    have hc : c < 0x80 := hs c (by simp)
    have hflat : (c :: s').flatMap (fun c => [c, 0]) =
        [c, 0] ++ s'.flatMap (fun c => [c, 0]) := by simp
    rw [hflat, show pre ++ ([c, 0] ++ s'.flatMap (fun c => [c, 0])) =
      (pre ++ [c, 0]) ++ s'.flatMap (fun c => [c, 0]) by simp]
    have hlen' : (pre ++ [c, 0]).length = 2 * (i + 1) := by simp [hlen]; omega
    have hih := ih (fun x hx => hs x (by simp [hx])) (pre ++ [c, 0]) (i + 1) hlen'
    show to_string_loop _ (s'.length + 1) i = _
    rw [to_string_loop]
    have hltotal : ((pre ++ [c, 0]) ++ s'.flatMap (fun c => [c, 0])).length =
        2 * i + 2 + (s'.flatMap (fun c => [c, 0])).length := by
      simp [hlen]; omega
    rw [if_neg (by omega), if_neg (by omega)]
    have hdec : decodeLE ((pre ++ [c, 0]) ++ s'.flatMap (fun c => [c, 0])) (i * 2) 2 = c := by
      have hcov : Covers ((pre ++ [c, 0]) ++ s'.flatMap (fun c => [c, 0])) (2 * i) [c, 0] := by
        rw [show (pre ++ [c, 0]) ++ s'.flatMap (fun c => [c, 0]) =
          pre ++ ([c, 0] ++ s'.flatMap (fun c => [c, 0])) by simp]
        have h1 := (@Covers_append (pre ++ ([c, 0] ++ s'.flatMap (fun c => [c, 0])))
          0 pre ([c, 0] ++ s'.flatMap (fun c => [c, 0]))).mp
          (covers_refl _)
        have h2 := (Covers_append.mp h1.2).1
        rw [hlen] at h2
        simpa using h2
      have := hcov.decodeLE_eq (w := 2) (by simp)
      rw [Nat.mul_comm i 2, this]
      simp [decodeLE]
    rw [hdec, if_pos (by left; omega), hih]
    rfl

/-- C8 (amended): `from_string(s).to_string() = Some(s)` holds for ASCII strings of
length below `2^16`; for other UTF-16-representable strings the UTF-8 byte count
written as the length field exceeds the number of emitted UTF-16 units and `to_string`
panics (or, for lengths ≥ 2^16, the truncated field drops characters). -/
theorem C8_from_string_to_string (s : List Nat) (hascii : ∀ c ∈ s, c < 0x80)
    (hlen : s.length < 2 ^ 16) :
    (ResourceEntryName.from_string s).to_string = some s := by
  have hunits : s.flatMap utf16_units = s := by
    clear hlen
    induction s with
    | nil => rfl
    | cons c s' ih =>
      have hc : c < 0x80 := hascii c (by simp)
      rw [List.flatMap_cons, ih (fun x hx => hascii x (by simp [hx]))]
      simp [utf16_units, show c < 0x10000 by omega]
  have hlen8 : (s.map utf8_len).sum = s.length := by
    clear hlen hunits
    induction s with
    | nil => rfl
    | cons c s' ih =>
      have hc : c < 0x80 := hascii c (by simp)
      simp [utf8_len, hc, ih (fun x hx => hascii x (by simp [hx]))]
      omega
  have hbytes : s.flatMap (fun c => leBytes 2 c) = s.flatMap (fun c => [c, 0]) := by
    apply List.flatMap_congr
    intro c hc
    have : c < 0x80 := hascii c hc
    simp [leBytes]
    omega
  rw [ResourceEntryName.from_string, ResourceEntryName.to_string]
  simp only [hunits, hlen8, hbytes]
  rw [if_neg (by simp [leBytes])]
  have hmod : s.length % 2 ^ 16 = s.length := Nat.mod_eq_of_lt hlen
  have hdec : decodeLE (leBytes 2 (s.length % 2 ^ 16) ++ s.flatMap (fun c => [c, 0])) 0 2 =
      s.length := by
    have := (covers_self_append (leBytes 2 (s.length % 2 ^ 16))
      (s.flatMap (fun c => [c, 0]))).decodeLE_eq (w := 2) (by simp)
    rw [this, decodeLE_leBytes]
    omega
  rw [hdec]
  have hdrop : (leBytes 2 (s.length % 2 ^ 16) ++ s.flatMap (fun c => [c, 0])).drop 2 =
      [] ++ s.flatMap (fun c => [c, 0]) := by
    simp [leBytes]
  rw [hdrop]
  exact to_string_loop_ascii s hascii [] 0 rfl

/-- C8 counterexample: for `s = "é"` (scalar value `0xE9`) the claim fails: the length
field records 2 (UTF-8 bytes) but only one UTF-16 unit is present, so `to_string`
panics instead of returning `Some("é")`. -/
theorem C8_counterexample :
    (ResourceEntryName.from_string [0xe9]).to_string ≠ some [0xe9] := by decide

/-- Witness for C8 at the concrete string "MAINICON". -/
theorem C8_witness :
    (ResourceEntryName.from_string [77, 65, 73, 78, 73, 67, 79, 78]).to_string =
      some [77, 65, 73, 78, 73, 67, 79, 78] :=
  C8_from_string_to_string [77, 65, 73, 78, 73, 67, 79, 78] (by decide) (by decide)

end Editpe

namespace Editpe

/-! ### Concrete example images (used by witnesses and counterexamples) -/

set_option maxRecDepth 1000000

/-- A 160-byte example buffer. -/
def exBuf : Bytes := (List.range 0xa0).map (· % 256)

def exWin : WindowsHeader :=
  { image_base := 0x140000000, section_alignment := 0x1000, file_alignment := 0x200
    operating_system_version_major := 6, operating_system_version_minor := 0
    image_version_major := 0, image_version_minor := 0
    subsystem_version_major := 6, subsystem_version_minor := 0
    win32_version_value := 0, size_of_image := 0x2000, size_of_headers := 0x80
    check_sum := 77, subsystem := 3, dll_characteristics := 0
    size_of_stack_reserve := 0x100000, size_of_stack_commit := 0x1000
    size_of_heap_reserve := 0x100000, size_of_heap_commit := 0x1000
    loader_flags := 0, number_of_rva_and_sizes := 3 }

/-- A `.rsrc` section: 16 raw bytes at file offset `0x80`, virtual range
`[0x1000, 0x3000)`; it is the only (hence last) section. -/
def exSec : SectionHeader :=
  { SectionHeader.default with
    name := 0x637273722e
    virtual_size := 0x2000
    virtual_address := 0x1000
    size_of_raw_data := 0x10
    pointer_to_raw_data := 0x80
    characteristics := 0x40000040 }

/-- A well-formed single-section PE32+ image whose resource data directory points into
`exSec`; no other data directory shares the section. -/
def exImg : Image :=
  { image := exBuf
    pe_dos_magic := 0x5a4d
    pe_signature := 0x4550
    coff_header := { machine := 0x8664, number_of_sections := 1, time_date_stamp := 0
                     pointer_to_symbol_table := 0, number_of_symbols := 0
                     size_of_optional_header := 136, characteristics := 0x22 }
    standard_header := { magic := 0x20b, linker_version_major := 14
                         linker_version_minor := 0, size_of_code := 0
                         size_of_initialized_data := 0, size_of_uninitialized_data := 0
                         address_of_entry_point := 0, base_of_code := 0 }
    windows_header := .WindowsHeader64 exWin
    header_data_directory := [(.ExportTable, ⟨0, 0⟩), (.ImportTable, ⟨0, 0⟩),
                              (.ResourceTable, ⟨0x1000, 0x10⟩)]
    section_table := [exSec]
    resource_directory := none
    coff_header_offset := 4
    optional_header_dd_offset := 0x28
    directories_offset := 0x40 }

/-- A one-leaf resource directory of total size 60 bytes (16-byte table + 8-byte entry
+ 16-byte data descriptor + 20-byte payload), larger than `exSec`'s 16 raw bytes. -/
def exDir : ResourceDirectory :=
  ⟨0x1000, .mk ⟨0,0,0,0,0,1⟩
    (.cons (.ID 24) (.Data ⟨(List.range 20).map (· % 256), 1200, 0⟩) .nil)⟩

/-- `exImg` with the section's raw range extending past the end of the 160-byte buffer
(`0x80 + 0x200 > 0xa0`), triggering `InvalidSectionRange`. -/
def exImgBad : Image :=
  { exImg with section_table := [{ exSec with size_of_raw_data := 0x200 }] }

/-- C1: if `set_resource_directory` returns an error, every observable component of the
image — byte buffer, COFF header, windows header, data directories, section table and
cached resource directory — is exactly as it was on entry. -/
theorem C1_error_leaves_image_unchanged (img : Image) (d : ResourceDirectory)
    (e : ImageWriteError) (h : (img.set_resource_directory d).2 = .err e) :
    (img.set_resource_directory d).1.image = img.image ∧
    (img.set_resource_directory d).1.coff_header = img.coff_header ∧
    (img.set_resource_directory d).1.windows_header = img.windows_header ∧
    (img.set_resource_directory d).1.header_data_directory = img.header_data_directory ∧
    (img.set_resource_directory d).1.section_table = img.section_table ∧
    (img.set_resource_directory d).1.resource_directory = img.resource_directory := by
  unfold Image.set_resource_directory at h ⊢
  cases hrun : Image.set_resource_directory_run img d with
  | ok v => rw [hrun] at h; exact absurd h (by simp)
  | err e' => exact ⟨rfl, rfl, rfl, rfl, rfl, rfl⟩
  | panic => rw [hrun] at h; exact absurd h (by simp)

/-- Witness for C1: on `exImgBad` the call fails with
`InvalidSectionRange 0x280 0xa0` and the image is untouched. -/
theorem C1_witness :
    (exImgBad.set_resource_directory exDir).2 = .err (.InvalidSectionRange 0x280 0xa0) ∧
    (exImgBad.set_resource_directory exDir).1.image = exImgBad.image :=
  ⟨by decide, (C1_error_leaves_image_unchanged exImgBad exDir
    (.InvalidSectionRange 0x280 0xa0) (by decide)).1⟩

/-- C3 (code bug): on the extend-in-place path the source first assigns
`size_of_raw_data += new_size - size_of_raw_data` and only then adds
`aligned_to(new_size - size_of_raw_data, alignment)` — by then zero — to
`virtual_size`. On `exImg`/`exDir` (section is last, no other directory shares it,
new size 60 > raw size 16) the call succeeds, `size_of_raw_data` becomes 60, but
`virtual_size` stays `0x2000` instead of the claimed
`align_up(60, 0x1000) = 0x1000`. -/
theorem C3_extend_in_place_virtual_size_divergence :
    (exImg.set_resource_directory exDir).2 = .ok none ∧
    exDir.size = 60 ∧
    exSec.size_of_raw_data < 60 ∧
    ((exImg.set_resource_directory exDir).1.section_table.getD 0
      SectionHeader.default).size_of_raw_data = 60 ∧
    ((exImg.set_resource_directory exDir).1.section_table.getD 0
      SectionHeader.default).virtual_size = 0x2000 ∧
    aligned_to 60 exWin.section_alignment = 0x1000 ∧
    (0x2000 : Nat) ≠ 0x1000 := by decide

/-- C4: for every resource directory and every virtual address, the byte buffer
produced by `build` has exactly `size` bytes. -/
theorem C4_build_length (d : ResourceDirectory) (va : Nat) :
    (d.build va).length = d.size :=
  build_length d.root va

end Editpe

namespace Editpe

theorem Res.bind_ok_iff {ε α β : Type} {x : Res ε α} {f : α → Res ε β} {b : β} :
    Res.bind x f = .ok b ↔ ∃ a, x = .ok a ∧ f a = .ok b := by
  cases x <;> simp [Res.bind]

/-- The file offset one past the last section's raw data (`last_section_end` in
`Image::set_resource_directory`): bytes from here on are the trailing overlay. -/
def Image.last_section_end (self : Image) : Nat :=
  ((maxByKey (fun s => s.pointer_to_raw_data + s.size_of_raw_data)
      (self.section_table.filter (fun s => decide (s.size_of_raw_data > 0)))).map
    (fun s => s.pointer_to_raw_data + s.size_of_raw_data)).getD self.image.length

/-- C9: a successful `set_resource_directory` call leaves the first
`coff_header_offset` bytes (DOS stub and PE signature) byte-for-byte unchanged, and the
emitted image ends with the original overlay bytes past the last section's raw data. -/
theorem C9_success_preserves_prefix_and_overlay (img : Image) (d : ResourceDirectory)
    (prev : Option ResourceDirectory)
    (h : (img.set_resource_directory d).2 = .ok prev) :
    (img.set_resource_directory d).1.image.take img.coff_header_offset =
      img.image.take img.coff_header_offset ∧
    ∃ front, (img.set_resource_directory d).1.image =
      front ++ img.image.drop img.last_section_end := by
  unfold Image.set_resource_directory at h ⊢
  cases hrun : Image.set_resource_directory_run img d with
  | err e => rw [hrun] at h; exact absurd h (by simp)
  | panic => rw [hrun] at h; exact absurd h (by simp)
  | ok v =>
    obtain ⟨out, prev0⟩ := v
    unfold Image.set_resource_directory_run at hrun
    simp only [Res.bind_eq, Res.pure_eq, Res.bind_ok, Res.bind_panic] at hrun
    split at hrun
    swap
    · exact absurd hrun (by simp)
    rw [Res.bind_ok_iff] at hrun
    obtain ⟨nis, hnis, hrun⟩ := hrun
    split at hrun
    · exact absurd hrun (by simp)
    rw [Res.bind_ok_iff] at hrun
    obtain ⟨step, hstep, hrun⟩ := hrun
    obtain ⟨add_new, st2, hdd2, rsd⟩ := step
    dsimp only at hrun
    rw [Res.bind_ok_iff] at hrun
    obtain ⟨addStep, haddStep, hrun⟩ := hrun
    obtain ⟨ch2, st3, hdd3, rsd2, nsd, rhs⟩ := addStep
    dsimp only at hrun
    split at hrun
    · exact absurd hrun (by simp)
    split at hrun
    · exact absurd hrun (by simp)
    rw [Res.bind_ok_iff] at hrun
    obtain ⟨hg, hhg, hrun⟩ := hrun
    rw [Res.bind_ok_iff] at hrun
    obtain ⟨mid, hmid, hrun⟩ := hrun
    rw [Res.bind_ok_iff] at hrun
    obtain ⟨ov, hov, hrun⟩ := hrun
    have hout : out.image = nis ++ ch2.as_bytes ++ img.standard_header.as_bytes ++
        (match img.windows_header with
          | .WindowsHeader32 h => GenericWindowsHeader.WindowsHeader32
              { h with number_of_rva_and_sizes := hdd3.length
                       size_of_image := h.size_of_image + nsd.length
                       check_sum := 0 }
          | .WindowsHeader64 h => GenericWindowsHeader.WindowsHeader64
              { h with number_of_rva_and_sizes := hdd3.length
                       size_of_image := h.size_of_image + nsd.length
                       check_sum := 0 }).as_bytes ++
        (hdd3.flatMap (fun p => p.2.as_bytes)) ++
        (st3.flatMap SectionHeader.as_bytes) ++ hg ++ mid ++ nsd ++ ov := by
      cases hrun
      rfl
    dsimp only
    -- `nis` is the original prefix
    unfold sliceRange at hnis
    split at hnis
    case isFalse => exact absurd hnis (by simp)
    case isTrue hc =>
      have hnis' : nis = img.image.take img.coff_header_offset := by
        cases hnis
        simp
      -- `ov` is the original overlay
      unfold sliceRange at hov
      split at hov
      case isFalse => exact absurd hov (by simp)
      case isTrue hc2 =>
        have hov' : ov = img.image.drop img.last_section_end := by
          cases hov
          unfold Image.last_section_end
          exact List.take_of_length_le (by simp)
        constructor
        · rw [hout, hnis']
          simp only [List.append_assoc]
          rw [List.take_append_of_le_length
            (by simp only [List.length_take]; omega)]
          simp [List.take_take]
        · exact ⟨_, by rw [hout, hov']⟩

set_option maxRecDepth 1000000

/-- Witness for C9 at `exImg`/`exDir`: the call succeeds and both frame conditions
hold. -/
theorem C9_witness :
    (exImg.set_resource_directory exDir).1.image.take exImg.coff_header_offset =
      exImg.image.take exImg.coff_header_offset ∧
    ∃ front, (exImg.set_resource_directory exDir).1.image =
      front ++ exImg.image.drop exImg.last_section_end :=
  C9_success_preserves_prefix_and_overlay exImg exDir none (by decide)

end Editpe

namespace Editpe

/-- C6: packed-address tolerance in the resource-tree parser. (1) Whenever the
truncated signed in-file address has its top 40 bits all set, `packedLeafAddress`
clears exactly those bits and returns the remainder. (2) When a leaf's adjusted
address plus its size still exceeds the image length, the entry loop skips exactly
that leaf — it continues with the remaining entries and the accumulator unchanged,
rather than returning an error. -/
theorem C6_packed_address_tolerance :
    (∀ base_address data_rva virtual_address : Nat,
      (((base_address : Int) + data_rva - virtual_address) % (2 ^ 64 : Int)).toNat &&&
          0xffffffffff000000 = 0xffffffffff000000 →
      packedLeafAddress base_address data_rva virtual_address =
        ((((base_address : Int) + data_rva - virtual_address) % (2 ^ 64 : Int)).toNat ^^^
          0xffffffffff000000) ∧
      packedLeafAddress base_address data_rva virtual_address &&&
        0xffffffffff000000 = 0) ∧
    (∀ fuel image base_address virtual_address entry_offset count acc entry data,
      read_ResourceDirectoryEntry image entry_offset = .ok entry →
      entry.data_entry_or_subdirectory_offset &&& 0x80000000 = 0 →
      read_ResourceDataEntry image
        (base_address + entry.data_entry_or_subdirectory_offset) = .ok data →
      packedLeafAddress base_address data.data_rva virtual_address + data.size >
        image.length →
      ResourceTable.parse_entries (fuel + 1) image base_address virtual_address
        entry_offset (count + 1) acc =
      ResourceTable.parse_entries fuel image base_address virtual_address
        (entry_offset + 8) count acc) := by
  constructor
  · intro base_address data_rva virtual_address h
    refine ⟨by simp only [packedLeafAddress]; rw [if_pos h], ?_⟩
    have hres : packedLeafAddress base_address data_rva virtual_address =
        ((((base_address : Int) + data_rva - virtual_address) % (2 ^ 64 : Int)).toNat ^^^
          0xffffffffff000000) := by
      simp only [packedLeafAddress]; rw [if_pos h]
    rw [hres]
    apply Nat.eq_of_testBit_eq
    intro i
    have hb := congrArg (fun x => x.testBit i) h
    simp only [Nat.testBit_and] at hb
    simp only [Nat.testBit_and, Nat.testBit_xor, Nat.zero_testBit]
    cases hm : Nat.testBit 0xffffffffff000000 i
    · simp
    · rw [hm] at hb
      simp at hb
      simp [hb, hm]
  · intro fuel image base_address virtual_address entry_offset count acc entry data
      hread htag hdata hout
    rw [ResourceTable.parse_entries]
    rw [hread]
    simp only [Res.bind_eq, Res.bind_ok]
    rw [if_neg (by simp [htag])]
    rw [hdata]
    simp only [Res.bind_eq, Res.bind_ok]
    rw [if_pos hout]

/-- A 32-byte image containing one leaf directory entry at offset 0 (id 5, data
descriptor at offset 16) whose descriptor claims 4 bytes at `data_rva = 0x1000`,
far outside the image. -/
def exC6img : Bytes :=
  [5, 0, 0, 0, 16, 0, 0, 0, 0, 0, 0, 0, 0, 0, 0, 0,
   0, 16, 0, 0, 4, 0, 0, 0, 0, 0, 0, 0, 0, 0, 0, 0]

/-- Witness for C6: the underflowed address `0x100 - 0x2000` gets its top 40 bits
cleared, and on `exC6img` the out-of-range leaf is skipped with the accumulator
unchanged. -/
theorem C6_witness :
    (packedLeafAddress 0x100 0 0x2000 =
      ((((0x100 : Int) + 0 - 0x2000) % (2 ^ 64 : Int)).toNat ^^^ 0xffffffffff000000) ∧
     packedLeafAddress 0x100 0 0x2000 &&& 0xffffffffff000000 = 0) ∧
    ResourceTable.parse_entries 1 exC6img 0 0 0 1 .nil =
      ResourceTable.parse_entries 0 exC6img 0 0 8 0 .nil :=
  ⟨C6_packed_address_tolerance.1 0x100 0 0x2000 (by decide),
   C6_packed_address_tolerance.2 0 exC6img 0 0 0 0 .nil ⟨5, 16⟩ ⟨0x1000, 4, 0, 0⟩
     (by decide) (by decide) (by decide) (by decide)⟩

end Editpe

namespace Editpe

theorem readUN_eq_ok {bs : Bytes} {off w : Nat} (h1 : off ≤ bs.length)
    (h2 : w ≤ bs.length - off) : readUN bs off w = .ok (decodeLE bs off w) := by
  unfold readUN
  rw [if_neg (by omega), if_neg (by omega)]

theorem readUN_eq_err {bs : Bytes} {off w : Nat} (h1 : off ≤ bs.length)
    (h2 : bs.length - off < w) : readUN bs off w = .err (.InvalidBytes "read") := by
  unfold readUN
  rw [if_neg (by omega), if_pos (by omega)]

theorem readUN_eq_panic {bs : Bytes} {off w : Nat} (h : off > bs.length) :
    readUN bs off w = .panic := by
  unfold readUN
  rw [if_pos h]

/-- C5 (amended): the actual error behaviour of `Image::parse` for each claimed case.
The `InvalidHeader` variant is returned for a wrong DOS magic, a wrong PE signature,
`size_of_optional_header < 24`, an unknown or undersized optional-header magic, and an
image ending exactly at the data-directory offset (stated for both the PE32 and the
PE32+ layout). But an input shorter than the DOS header does NOT give `InvalidHeader`:
fewer than 2 bytes give `InvalidBytes`; an "MZ" input shorter than `0x3c` bytes panics
on the `&image[0x3c..]` slice; one shorter than `0x40` gives `InvalidBytes`; and an
image truncated strictly before the end of the optional header fails with
`InvalidBytes` while reading the windows header (again both layouts), not
`InvalidHeader`. -/
theorem C5_parse_header_error_cases (fuel : Nat) (image : Bytes) :
    (image.length < 2 → Image.parse fuel image = .err (.InvalidBytes "read")) ∧
    (2 ≤ image.length → decodeLE image 0 2 ≠ PE_DOS_MAGIC →
      Image.parse fuel image = .err (.InvalidHeader "no dos magic")) ∧
    (2 ≤ image.length → decodeLE image 0 2 = PE_DOS_MAGIC →
      image.length < PE_PTR_OFFSET → Image.parse fuel image = .panic) ∧
    (2 ≤ image.length → decodeLE image 0 2 = PE_DOS_MAGIC →
      PE_PTR_OFFSET ≤ image.length → image.length < PE_PTR_OFFSET + 4 →
      Image.parse fuel image = .err (.InvalidBytes "read")) ∧
    (∀ sigoff sig, 2 ≤ image.length → decodeLE image 0 2 = PE_DOS_MAGIC →
      readUN image PE_PTR_OFFSET 4 = .ok sigoff → readUN image sigoff 4 = .ok sig →
      sig ≠ PE_NT_SIGNATURE →
      Image.parse fuel image = .err (.InvalidHeader "no pe signature")) ∧
    (∀ sigoff ch, 2 ≤ image.length → decodeLE image 0 2 = PE_DOS_MAGIC →
      readUN image PE_PTR_OFFSET 4 = .ok sigoff →
      readUN image sigoff 4 = .ok PE_NT_SIGNATURE →
      read_CoffHeader image (sigoff + 4) = .ok ch →
      ch.size_of_optional_header < 24 →
      Image.parse fuel image = .err (.InvalidHeader "optional header too small")) ∧
    (∀ sigoff ch sh, 2 ≤ image.length → decodeLE image 0 2 = PE_DOS_MAGIC →
      readUN image PE_PTR_OFFSET 4 = .ok sigoff →
      readUN image sigoff 4 = .ok PE_NT_SIGNATURE →
      read_CoffHeader image (sigoff + 4) = .ok ch →
      ¬ ch.size_of_optional_header < 24 →
      read_StandardHeader image (sigoff + 4 + 20) = .ok sh →
      ¬ (sh.magic = PE_32_MAGIC ∧ ch.size_of_optional_header ≥ 96) →
      ¬ (sh.magic = PE_64_MAGIC ∧ ch.size_of_optional_header ≥ 112) →
      Image.parse fuel image = .err (.InvalidHeader "invalid optional header")) ∧
    (∀ sigoff ch sh wh, 2 ≤ image.length → decodeLE image 0 2 = PE_DOS_MAGIC →
      readUN image PE_PTR_OFFSET 4 = .ok sigoff →
      readUN image sigoff 4 = .ok PE_NT_SIGNATURE →
      read_CoffHeader image (sigoff + 4) = .ok ch →
      ¬ ch.size_of_optional_header < 24 →
      read_StandardHeader image (sigoff + 4 + 20) = .ok sh →
      sh.magic = PE_32_MAGIC → ch.size_of_optional_header ≥ 96 →
      read_WindowsHeader32 image (sigoff + 4 + 20 + 28) = .ok wh →
      image.length ≤ sigoff + 4 + 20 + 96 →
      Image.parse fuel image =
        .err (.InvalidHeader "image truncated after optional header")) ∧
    (∀ sigoff ch sh, 2 ≤ image.length → decodeLE image 0 2 = PE_DOS_MAGIC →
      readUN image PE_PTR_OFFSET 4 = .ok sigoff →
      readUN image sigoff 4 = .ok PE_NT_SIGNATURE →
      read_CoffHeader image (sigoff + 4) = .ok ch →
      ¬ ch.size_of_optional_header < 24 →
      read_StandardHeader image (sigoff + 4 + 20) = .ok sh →
      sh.magic = PE_32_MAGIC → ch.size_of_optional_header ≥ 96 →
      sigoff + 4 + 20 + 28 ≤ image.length →
      image.length < sigoff + 4 + 20 + 96 →
      Image.parse fuel image = .err (.InvalidBytes "WindowsHeader")) ∧
    (∀ sigoff ch sh, 2 ≤ image.length → decodeLE image 0 2 = PE_DOS_MAGIC →
      readUN image PE_PTR_OFFSET 4 = .ok sigoff →
      readUN image sigoff 4 = .ok PE_NT_SIGNATURE →
      read_CoffHeader image (sigoff + 4) = .ok ch →
      ¬ ch.size_of_optional_header < 24 →
      read_StandardHeader image (sigoff + 4 + 20) = .ok sh →
      sh.magic = PE_64_MAGIC → ch.size_of_optional_header ≥ 112 →
      sigoff + 4 + 20 + 24 ≤ image.length →
      image.length < sigoff + 4 + 20 + 112 →
      Image.parse fuel image = .err (.InvalidBytes "WindowsHeader")) ∧
    (∀ sigoff ch sh wh, 2 ≤ image.length → decodeLE image 0 2 = PE_DOS_MAGIC →
      readUN image PE_PTR_OFFSET 4 = .ok sigoff →
      readUN image sigoff 4 = .ok PE_NT_SIGNATURE →
      read_CoffHeader image (sigoff + 4) = .ok ch →
      ¬ ch.size_of_optional_header < 24 →
      read_StandardHeader image (sigoff + 4 + 20) = .ok sh →
      sh.magic = PE_64_MAGIC → ch.size_of_optional_header ≥ 112 →
      read_WindowsHeader64 image (sigoff + 4 + 20 + 24) = .ok wh →
      image.length ≤ sigoff + 4 + 20 + 112 →
      Image.parse fuel image =
        .err (.InvalidHeader "image truncated after optional header")) := by
  refine ⟨?_, ?_, ?_, ?_, ?_, ?_, ?_, ?_, ?_, ?_, ?_⟩
  · intro h
    unfold Image.parse
    rw [readUN_eq_err (by omega) (by omega)]
    rfl
  · intro hlen hm
    unfold Image.parse
    rw [readUN_eq_ok (by omega) (by omega)]
    simp only [Res.bind_eq, Res.bind_ok]
    rw [if_pos hm]
  · intro hlen hm hsmall
    unfold Image.parse
    rw [readUN_eq_ok (by omega) (by omega)]
    simp only [Res.bind_eq, Res.bind_ok]
    rw [if_neg (by simp [hm]), readUN_eq_panic (by omega)]
    rfl
  · intro hlen hm h1 h2
    unfold Image.parse
    rw [readUN_eq_ok (by omega) (by omega)]
    simp only [Res.bind_eq, Res.bind_ok]
    rw [if_neg (by simp [hm]), readUN_eq_err (by omega) (by omega)]
    rfl
  · intro sigoff sig hlen hm hsig hsg hne
    unfold Image.parse
    rw [readUN_eq_ok (by omega) (by omega)]
    simp only [Res.bind_eq, Res.bind_ok]
    rw [if_neg (by simp [hm]), hsig]
    simp only [Res.bind_ok]
    rw [hsg]
    simp only [Res.bind_ok]
    rw [if_pos hne]
  · intro sigoff ch hlen hm hsig hsg hcoff hsoh
    unfold Image.parse
    rw [readUN_eq_ok (by omega) (by omega)]
    simp only [Res.bind_eq, Res.bind_ok]
    rw [if_neg (by simp [hm]), hsig]
    simp only [Res.bind_ok]
    rw [hsg]
    simp only [Res.bind_ok]
    rw [if_neg (by simp [PE_NT_SIGNATURE]), hcoff]
    simp only [Res.bind_ok]
    rw [if_pos hsoh]
  · intro sigoff ch sh hlen hm hsig hsg hcoff hsoh hsh hn32 hn64
    unfold Image.parse
    rw [readUN_eq_ok (by omega) (by omega)]
    simp only [Res.bind_eq, Res.bind_ok]
    rw [if_neg (by simp [hm]), hsig]
    simp only [Res.bind_ok]
    rw [hsg]
    simp only [Res.bind_ok]
    rw [if_neg (by simp [PE_NT_SIGNATURE]), hcoff]
    simp only [Res.bind_ok]
    rw [if_neg hsoh, hsh]
    simp only [Res.bind_ok]
    rw [if_neg hn32, if_neg hn64]
    rfl
  · intro sigoff ch sh wh hlen hm hsig hsg hcoff hsoh hsh h32 h96 hwh htr
    unfold Image.parse
    rw [readUN_eq_ok (by omega) (by omega)]
    simp only [Res.bind_eq, Res.bind_ok]
    rw [if_neg (by simp [hm]), hsig]
    simp only [Res.bind_ok]
    rw [hsg]
    simp only [Res.bind_ok]
    rw [if_neg (by simp [PE_NT_SIGNATURE]), hcoff]
    simp only [Res.bind_ok]
    rw [if_neg hsoh, hsh]
    simp only [Res.bind_ok]
    rw [if_pos ⟨h32, h96⟩, hwh]
    simp only [Res.bind_ok]
    rw [if_pos htr]
  · intro sigoff ch sh hlen hm hsig hsg hcoff hsoh hsh h32 h96 hlo hhi
    unfold Image.parse
    rw [readUN_eq_ok (by omega) (by omega)]
    simp only [Res.bind_eq, Res.bind_ok]
    rw [if_neg (by simp [hm]), hsig]
    simp only [Res.bind_ok]
    rw [hsg]
    simp only [Res.bind_ok]
    rw [if_neg (by simp [PE_NT_SIGNATURE]), hcoff]
    simp only [Res.bind_ok]
    rw [if_neg hsoh, hsh]
    simp only [Res.bind_ok]
    rw [if_pos ⟨h32, h96⟩]
    rw [show read_WindowsHeader32 image (sigoff + 4 + 20 + 28) =
        .err (.InvalidBytes "WindowsHeader") from by
      unfold read_WindowsHeader32
      rw [if_neg (by omega), if_pos (by omega)]]
    rfl
  · intro sigoff ch sh hlen hm hsig hsg hcoff hsoh hsh h64 h112 hlo hhi
    unfold Image.parse
    rw [readUN_eq_ok (by omega) (by omega)]
    simp only [Res.bind_eq, Res.bind_ok]
    rw [if_neg (by simp [hm]), hsig]
    simp only [Res.bind_ok]
    rw [hsg]
    simp only [Res.bind_ok]
    rw [if_neg (by simp [PE_NT_SIGNATURE]), hcoff]
    simp only [Res.bind_ok]
    rw [if_neg hsoh, hsh]
    simp only [Res.bind_ok]
    rw [if_neg (by
      rw [h64]
      simp [PE_32_MAGIC, PE_64_MAGIC])]
    rw [if_pos ⟨h64, h112⟩]
    rw [show read_WindowsHeader64 image (sigoff + 4 + 20 + 24) =
        .err (.InvalidBytes "WindowsHeader") from by
      unfold read_WindowsHeader64
      rw [if_neg (by omega), if_pos (by omega)]]
    rfl
  · intro sigoff ch sh wh hlen hm hsig hsg hcoff hsoh hsh h64 h112 hwh htr
    unfold Image.parse
    rw [readUN_eq_ok (by omega) (by omega)]
    simp only [Res.bind_eq, Res.bind_ok]
    rw [if_neg (by simp [hm]), hsig]
    simp only [Res.bind_ok]
    rw [hsg]
    simp only [Res.bind_ok]
    rw [if_neg (by simp [PE_NT_SIGNATURE]), hcoff]
    simp only [Res.bind_ok]
    rw [if_neg hsoh, hsh]
    simp only [Res.bind_ok]
    rw [if_neg (by
      rw [h64]
      simp [PE_32_MAGIC, PE_64_MAGIC])]
    rw [if_pos ⟨h64, h112⟩, hwh]
    simp only [Res.bind_ok]
    rw [if_pos htr]

/-- C5 counterexample: a 1-byte input is shorter than the DOS header, yet `Image::parse`
returns `InvalidBytes` (a failed `u16` read), not the claimed `InvalidHeader`. -/
theorem C5_counterexample :
    Image.parse 0 [0x4d] = .err (.InvalidBytes "read") ∧
    (match Image.parse 0 [0x4d] with
      | .err (.InvalidHeader _) => true
      | _ => false) = false :=
  ⟨rfl, rfl⟩

/-- A 112-byte "MZ"/"PE" image with `size_of_optional_header = 24` and optional-header
magic 0: neither PE32 nor PE32+. -/
def exC5 : Bytes :=
  [0x4d, 0x5a] ++ List.replicate 0x3a 0 ++ [0x40, 0, 0, 0] ++ [0x50, 0x45, 0, 0] ++
  (List.replicate 16 0 ++ [24, 0] ++ [0, 0]) ++ ([0, 0] ++ List.replicate 22 0)

/-- A 128-byte "MZ"/"PE" PE32+ image (`size_of_optional_header = 112`, magic `0x20b`)
truncated strictly before the end of its optional header (which would end at byte
`0xc8`). -/
def exC5b : Bytes :=
  [0x4d, 0x5a] ++ List.replicate 0x3a 0 ++ [0x40, 0, 0, 0] ++ [0x50, 0x45, 0, 0] ++
  (List.replicate 16 0 ++ [112, 0] ++ [0, 0]) ++ ([0x0b, 0x02] ++ List.replicate 22 0) ++
  List.replicate 16 0

/-- Witness for C5: a wrong DOS magic gives `InvalidHeader "no dos magic"`; on `exC5`
the unknown optional-header magic gives `InvalidHeader "invalid optional header"`; and
on the mid-optional-header-truncated PE32+ image `exC5b` the parse fails with
`InvalidBytes`, not `InvalidHeader`. -/
theorem C5_witness :
    Image.parse 0 [0, 0] = .err (.InvalidHeader "no dos magic") ∧
    Image.parse 0 exC5 = .err (.InvalidHeader "invalid optional header") ∧
    Image.parse 0 exC5b = .err (.InvalidBytes "WindowsHeader") := by
  refine ⟨?_, ?_, ?_⟩
  · exact (C5_parse_header_error_cases 0 [0, 0]).2.1 (by decide) (by decide)
  · exact (C5_parse_header_error_cases 0 exC5).2.2.2.2.2.2.1 0x40 ⟨0, 0, 0, 0, 0, 24, 0⟩
      ⟨0, 0, 0, 0, 0, 0, 0, 0⟩ (by decide) (by decide) (by decide) (by decide)
      (by decide) (by decide) (by decide) (by decide) (by decide)
  · exact (C5_parse_header_error_cases 0 exC5b).2.2.2.2.2.2.2.2.2.1 0x40
      ⟨0, 0, 0, 0, 0, 112, 0⟩ ⟨0x20b, 0, 0, 0, 0, 0, 0, 0⟩ (by decide) (by decide)
      (by decide) (by decide) (by decide) (by decide) (by decide) (by decide)
      (by decide) (by decide) (by decide)

end Editpe

namespace Editpe

theorem utf8_decode_cons_ascii (b : Nat) (h : b < 0x80) (tail : Bytes) :
    utf8_decode (b :: tail) = b :: utf8_decode tail := by
  match tail with
  | [] => simp [utf8_decode, utf8_decode_one, h]
  | [b1] => simp [utf8_decode, utf8_decode_pair, h]
  | b1 :: b2 :: rest =>
    conv_lhs => rw [utf8_decode.eq_def]
    dsimp only
    rw [if_pos h]

theorem utf8_decode_encode_char (c : Nat) (hc : c < 0x110000) (tail : Bytes) :
    utf8_decode (utf8_encode_char c ++ tail) = c :: utf8_decode tail := by
  by_cases h1 : c < 0x80
  · rw [show utf8_encode_char c = [c] from by unfold utf8_encode_char; rw [if_pos h1]]
    exact utf8_decode_cons_ascii c h1 tail
  · by_cases h2 : c < 0x800
    · rw [show utf8_encode_char c = [0xc0 + c / 64, 0x80 + c % 64] from by
        unfold utf8_encode_char; rw [if_neg h1, if_pos h2]]
      match tail with
      | [] =>
        show utf8_decode [0xc0 + c / 64, 0x80 + c % 64] = [c]
        rw [show utf8_decode [0xc0 + c / 64, 0x80 + c % 64] =
          utf8_decode_pair (0xc0 + c / 64) (0x80 + c % 64) from by
            conv_lhs => rw [utf8_decode.eq_def]]
        unfold utf8_decode_pair
        rw [if_neg (by omega), if_neg (by omega), if_pos (by omega)]
        rw [if_pos (by unfold utf8_cont; simp only [decide_eq_true_eq]; omega)]
        simp only [List.cons.injEq]
        exact ⟨by omega, trivial⟩
      | t :: ts =>
        show utf8_decode ((0xc0 + c / 64) :: (0x80 + c % 64) :: t :: ts) = _
        conv_lhs => rw [utf8_decode.eq_def]
        dsimp only
        rw [if_neg (by omega), if_neg (by omega), if_pos (by omega)]
        rw [if_pos (by unfold utf8_cont; simp only [decide_eq_true_eq]; omega)]
        simp only [List.cons.injEq]
        exact ⟨by omega, trivial⟩
    · by_cases h3 : c < 0x10000
      · rw [show utf8_encode_char c =
            [0xe0 + c / 4096, 0x80 + c / 64 % 64, 0x80 + c % 64] from by
          unfold utf8_encode_char; rw [if_neg h1, if_neg h2, if_pos h3]]
        show utf8_decode ((0xe0 + c / 4096) :: (0x80 + c / 64 % 64) ::
          (0x80 + c % 64) :: tail) = _
        conv_lhs => rw [utf8_decode.eq_def]
        dsimp only
        rw [if_neg (by omega), if_neg (by omega), if_neg (by omega), if_pos (by omega)]
        rw [if_pos ⟨by unfold utf8_cont; simp only [decide_eq_true_eq]; omega,
          by unfold utf8_cont; simp only [decide_eq_true_eq]; omega⟩]
        simp only [List.cons.injEq]
        exact ⟨by omega, trivial⟩
      · rw [show utf8_encode_char c =
            [0xf0 + c / 0x40000, 0x80 + c / 4096 % 64, 0x80 + c / 64 % 64, 0x80 + c % 64]
          from by unfold utf8_encode_char; rw [if_neg h1, if_neg h2, if_neg h3]]
        show utf8_decode ((0xf0 + c / 0x40000) :: (0x80 + c / 4096 % 64) ::
          (0x80 + c / 64 % 64) :: (0x80 + c % 64) :: tail) = _
        conv_lhs => rw [utf8_decode.eq_def]
        dsimp only
        rw [if_neg (by omega), if_neg (by omega), if_neg (by omega), if_neg (by omega)]
        rw [if_pos ⟨by unfold utf8_cont; simp only [decide_eq_true_eq]; omega,
          by unfold utf8_cont; simp only [decide_eq_true_eq]; omega,
          by unfold utf8_cont; simp only [decide_eq_true_eq]; omega⟩]
        simp only [List.cons.injEq]
        exact ⟨by omega, trivial⟩

theorem utf8_roundtrip (m : List Nat) (h : ∀ c ∈ m, c < 0x110000) :
    utf8_decode (utf8_encode m) = m := by
  induction m with
  | nil => rfl
  | cons c rest ih =>
    rw [show utf8_encode (c :: rest) = utf8_encode_char c ++ utf8_encode rest from by
      simp [utf8_encode]]
    rw [utf8_decode_encode_char c (h c (by simp)), ih (fun x hx => h x (by simp [hx]))]

theorem insertMap_get : (es : ResourceEntries) → ∀ (k : ResourceEntryName)
    (v : ResourceEntry), (es.insertMap k v).1.get k = some v
  | .nil, k, v => by simp [ResourceEntries.insertMap, ResourceEntries.get]
  | .cons n e rest, k, v => by
    by_cases hk : n = k
    · simp [ResourceEntries.insertMap, hk, ResourceEntries.get]
    · simp [ResourceEntries.insertMap, hk, ResourceEntries.get, insertMap_get rest k v]
termination_by structural es => es

theorem insertMap_shape (es : ResourceEntries) (k : ResourceEntryName)
    (v : ResourceEntry) :
    ∃ n e rest, (es.insertMap k v).1 = .cons n e rest := by
  cases es with
  | nil => exact ⟨k, v, .nil, rfl⟩
  | cons n e rest =>
    by_cases hk : n = k
    · exact ⟨k, v, rest, by simp [ResourceEntries.insertMap, hk]⟩
    · exact ⟨n, e, (rest.insertMap k v).1, by simp [ResourceEntries.insertMap, hk]⟩

@[simp] theorem entries_mk (h : ResourceDirectoryTable) (es : ResourceEntries) :
    (ResourceTable.mk h es).entries = es := rfl

theorem listMoveIndex_to_zero {α : Type} {l : List α} {i : Nat} {x : α}
    (h : l.get? i = some x) : listMoveIndex l i 0 = x :: l.eraseIdx i := by
  unfold listMoveIndex
  rw [h]
  rfl

theorem findIdx?_lt_len_aux {α : Type} (p : α → Bool) :
    ∀ (l : List α) (s j : Nat), List.findIdx? p l s = some j → j < s + l.length := by
  intro l
  induction l with
  | nil => intro s j h; simp [List.findIdx?] at h
  | cons x xs ih =>
    intro s j h
    rw [List.findIdx?] at h
    by_cases hp : p x
    · rw [if_pos hp] at h
      cases h
      simp
    · rw [if_neg hp] at h
      have := ih (s + 1) j h
      simp only [List.length_cons]
      omega

theorem findIdx?_lt_len {α : Type} (p : α → Bool) (l : List α) (j : Nat)
    (h : l.findIdx? p = some j) : j < l.length := by
  have := findIdx?_lt_len_aux p l 0 j h
  omega

theorem insert_at_zero_shape (t : ResourceTable) (k : ResourceEntryName)
    (v : ResourceEntry) :
    ∃ rest, ((t.insert_at k v 0).1).entries = .cons k v rest := by
  have hmain : ∃ tl, listMoveIndex
      (if ((t.entries.toList.findIdx? (fun p => p.1 == k)).getD
          t.entries.toList.length) < t.entries.toList.length then
        t.entries.toList.set
          ((t.entries.toList.findIdx? (fun p => p.1 == k)).getD
            t.entries.toList.length) (k, v)
      else t.entries.toList ++ [(k, v)])
      ((t.entries.toList.findIdx? (fun p => p.1 == k)).getD
        t.entries.toList.length) 0 = (k, v) :: tl := by
    by_cases hidx : ((t.entries.toList.findIdx? (fun p => p.1 == k)).getD
        t.entries.toList.length) < t.entries.toList.length
    · refine ⟨(t.entries.toList.set
          ((t.entries.toList.findIdx? (fun p => p.1 == k)).getD
            t.entries.toList.length) (k, v)).eraseIdx
          ((t.entries.toList.findIdx? (fun p => p.1 == k)).getD
            t.entries.toList.length), ?_⟩
      rw [if_pos hidx]
      exact listMoveIndex_to_zero (by
        rw [List.get?_eq_getElem?]
        exact List.getElem?_set_eq_of_lt (k, v) hidx)
    · refine ⟨(t.entries.toList ++ [(k, v)]).eraseIdx t.entries.toList.length, ?_⟩
      rw [if_neg hidx]
      have hlen : ((t.entries.toList.findIdx? (fun p => p.1 == k)).getD
          t.entries.toList.length) = t.entries.toList.length := by
        rcases hfi : t.entries.toList.findIdx? (fun p => p.1 == k) with _ | j
        · rw [hfi]
          rfl
        · exact absurd (by simpa [hfi] using findIdx?_lt_len _ _ j hfi) hidx
      rw [hlen]
      exact listMoveIndex_to_zero (by
        rw [List.get?_eq_getElem?]
        exact List.getElem?_concat_length _ _)
  obtain ⟨tl, htl⟩ := hmain
  refine ⟨.ofList tl, ?_⟩
  simp only [ResourceTable.insert_at, entries_mk]
  rw [htl]
  rfl

end Editpe

namespace Editpe

set_option maxRecDepth 1000000

deriving instance DecidableEq for Except

theorem table_get_mk (h : ResourceDirectoryTable) (es : ResourceEntries)
    (k : ResourceEntryName) : (ResourceTable.mk h es).get k = es.get k := rfl

theorem get_manifest_of_shape (d : ResourceDirectory) (mt it : ResourceTable)
    (payload : ResourceData)
    (hne : d.root.entries ≠ .nil)
    (hget : d.root.get (.ID RT_MANIFEST) = some (.Table mt))
    (hmt : ∃ rest, mt.entries = .cons (.ID 1) (.Table it) rest)
    (hit : ∃ rest2, it.entries = .cons (.ID LANGUAGE_ID_EN_US) (.Data payload) rest2) :
    d.get_manifest = .ok (some (utf8_decode payload.data)) := by
  obtain ⟨rest, hmt⟩ := hmt
  obtain ⟨rest2, hit⟩ := hit
  unfold ResourceDirectory.get_manifest
  rcases hroot : d.root.entries with _ | ⟨n0, e0, r0⟩
  · exact absurd hroot hne
  · rw [hget]
    dsimp only
    rw [hmt]
    dsimp only
    rw [hit]
    dsimp only
    rw [show findLangEntry (.cons (.ID LANGUAGE_ID_EN_US) (.Data payload) rest2) =
        .Data payload from by
      unfold findLangEntry
      simp [ResourceEntries.toList]]

theorem get_manifest_after_set (d : ResourceDirectory) (hdr : ResourceDirectoryTable)
    (es : ResourceEntries) (mt0 it0 : ResourceTable) (m : List Nat)
    (hm : ∀ c ∈ m, c < 0x110000)
    (hd : d.root = .mk hdr (es.insertMap (.ID RT_MANIFEST)
      (.Table ((mt0.insert_at (.ID 1)
        (.Table ((it0.insert_at (.ID LANGUAGE_ID_EN_US)
          (.Data ⟨utf8_encode m, CODE_PAGE_ID_EN_US, 0⟩) 0).1)) 0).1))).1) :
    d.get_manifest = .ok (some m) := by
  have hmain := get_manifest_of_shape d
    ((mt0.insert_at (.ID 1)
      (.Table ((it0.insert_at (.ID LANGUAGE_ID_EN_US)
        (.Data ⟨utf8_encode m, CODE_PAGE_ID_EN_US, 0⟩) 0).1)) 0).1)
    ((it0.insert_at (.ID LANGUAGE_ID_EN_US)
      (.Data ⟨utf8_encode m, CODE_PAGE_ID_EN_US, 0⟩) 0).1)
    ⟨utf8_encode m, CODE_PAGE_ID_EN_US, 0⟩
    (by
      rw [hd]
      obtain ⟨n, e, r, hshape⟩ := insertMap_shape es (.ID RT_MANIFEST)
        (.Table ((mt0.insert_at (.ID 1)
          (.Table ((it0.insert_at (.ID LANGUAGE_ID_EN_US)
            (.Data ⟨utf8_encode m, CODE_PAGE_ID_EN_US, 0⟩) 0).1)) 0).1))
      rw [entries_mk, hshape]
      intro hcontra
      exact ResourceEntries.noConfusion hcontra)
    (by rw [hd, table_get_mk]; exact insertMap_get es _ _)
    (insert_at_zero_shape mt0 _ _)
    (insert_at_zero_shape it0 _ _)
  rw [hmain]
  rw [utf8_roundtrip m hm]

/-- C7 (amended): the manifest round-trip `set_manifest m; get_manifest = Some m` holds
whenever the root table is non-empty (the source returns early, changing nothing, on an
empty root) and `set_manifest` succeeds; the payload is stored as the raw UTF-8 bytes of
`m` and read back unchanged. -/
theorem C7_manifest_roundtrip (d d' : ResourceDirectory) (m : List Nat)
    (hne : d.root.entries ≠ .nil)
    (hm : ∀ c ∈ m, c < 0x110000)
    (hset : d.set_manifest m = .ok d') :
    d'.get_manifest = .ok (some m) := by
  unfold ResourceDirectory.set_manifest at hset
  rcases hroot : d.root.entries with _ | ⟨n0, e0, r0⟩
  · exact absurd hroot hne
  · rw [hroot] at hset
    rcases hget : d.root.get (.ID RT_MANIFEST) with _ | entry
    · rw [hget] at hset
      dsimp only [Except.bind] at hset
      cases hset
      exact get_manifest_after_set _ _ _ _ _ m hm rfl
    · rcases entry with mt | pd
      · rw [hget] at hset
        dsimp only [Except.bind] at hset
        rcases hte : mt.entries with _ | ⟨name1, ent1, r1⟩
        · rw [hte] at hset
          dsimp only [Except.bind] at hset
          cases hset
          exact get_manifest_after_set _ _ _ _ _ m hm rfl
        · rcases ent1 with ti | pdata
          · rw [hte] at hset
            dsimp only [Except.bind] at hset
            cases hset
            exact get_manifest_after_set _ _ _ _ _ m hm rfl
          · rw [hte] at hset
            dsimp only [Except.bind] at hset
            cases hset
      · rw [hget] at hset
        dsimp only [Except.bind] at hset
        cases hset

/-- C7 counterexample: on the default (empty-root) directory, `set_manifest` succeeds
but is a no-op, and `get_manifest` then yields `None`, not `Some "hi"`. -/
theorem C7_counterexample :
    ResourceDirectory.default.set_manifest [104, 105] = .ok ResourceDirectory.default ∧
    ResourceDirectory.default.get_manifest = .ok none :=
  ⟨rfl, rfl⟩

/-- A directory with a non-empty root holding one unrelated (id 3) data leaf. -/
def exDir7 : ResourceDirectory :=
  ⟨0, .mk ⟨0, 0, 0, 0, 0, 1⟩ (.cons (.ID 3) (.Data ⟨[1, 2, 3], 0, 0⟩) .nil)⟩

/-- Witness for C7 at `exDir7` (non-empty root) and the two-character manifest "hi". -/
theorem C7_witness :
    ResourceDirectory.get_manifest
      ((exDir7.set_manifest [104, 105]).toOption.getD ResourceDirectory.default) =
      .ok (some [104, 105]) :=
  C7_manifest_roundtrip exDir7
    ((exDir7.set_manifest [104, 105]).toOption.getD ResourceDirectory.default)
    [104, 105] (by decide) (by decide) (by decide)

end Editpe

namespace Editpe

/-! ### C2 infrastructure: entry-list algebra -/

theorem countNames_add_countIds : (es : ResourceEntries) →
    es.countNames + es.countIds = es.length
  | .nil => rfl
  | .cons n e rest => by
    have ih := countNames_add_countIds rest
    simp only [ResourceEntries.countNames, ResourceEntries.countIds,
      ResourceEntries.length]
    by_cases h : n.string_size > 0 <;> simp [h] <;> omega
termination_by structural es => es

theorem entries_append_nil : (es : ResourceEntries) → es.append .nil = es
  | .nil => rfl
  | .cons n e rest => by
    simp only [ResourceEntries.append]
    rw [entries_append_nil rest]
termination_by structural es => es

theorem entries_append_assoc : (a : ResourceEntries) → ∀ b c : ResourceEntries,
    (a.append b).append c = a.append (b.append c)
  | .nil => by intro b c; rfl
  | .cons n e rest => by
    intro b c
    simp only [ResourceEntries.append]
    rw [entries_append_assoc rest b c]
termination_by structural a => a

theorem get_append_none : (a : ResourceEntries) → ∀ (b : ResourceEntries)
    (k : ResourceEntryName), a.get k = none → b.get k = none →
    (a.append b).get k = none
  | .nil => by intro b k _ hb; exact hb
  | .cons n e rest => by
    intro b k ha hb
    simp only [ResourceEntries.get] at ha ⊢
    rcases hnk : decide (n = k) with _ | _
    · simp at hnk
      rw [if_neg hnk] at ha ⊢
      exact get_append_none rest b k ha hb
    · simp at hnk
      rw [if_pos hnk] at ha
      exact absurd ha (by simp)
termination_by structural a => a

theorem insertMap_fresh : (acc : ResourceEntries) → ∀ (k : ResourceEntryName)
    (v : ResourceEntry), acc.get k = none →
    (acc.insertMap k v).1 = acc.append (.cons k v .nil)
  | .nil => by intro k v _; rfl
  | .cons n e rest => by
    intro k v h
    simp only [ResourceEntries.get] at h
    simp only [ResourceEntries.insertMap, ResourceEntries.append]
    rcases hnk : decide (n = k) with _ | _
    · simp at hnk
      rw [if_neg hnk] at h ⊢
      simp only []
      rw [insertMap_fresh rest k v h]
    · simp at hnk
      rw [if_pos hnk] at h
      exact absurd h (by simp)
termination_by structural acc => acc

/-! ### C2 infrastructure: structure reads through `Covers` -/

theorem Covers.decodeLE_leBytes_eq {img : Bytes} {pos w v : Nat}
    (h : Covers img pos (leBytes w v)) : decodeLE img pos w = v % 2 ^ (8 * w) := by
  rw [h.decodeLE_eq (by rw [leBytes_length]), decodeLE_leBytes]

theorem read_RDT_of_covers {img : Bytes} {off : Nat} (t : ResourceDirectoryTable)
    (h : Covers img off t.as_bytes)
    (b1 : t.characteristics < 2 ^ 32) (b2 : t.time_date_stamp < 2 ^ 32)
    (b3 : t.version_major < 2 ^ 16) (b4 : t.version_minor < 2 ^ 16)
    (b5 : t.number_of_name_entries < 2 ^ 16) (b6 : t.number_of_id_entries < 2 ^ 16) :
    read_ResourceDirectoryTable img off = .ok t := by
  have hlen := h.1
  rw [RDT_as_bytes_length] at hlen
  rw [ResourceDirectoryTable.as_bytes] at h
  obtain ⟨h5, h6⟩ := Covers_append.mp h
  obtain ⟨h4, h5⟩ := Covers_append.mp h5
  obtain ⟨h3, h4⟩ := Covers_append.mp h4
  obtain ⟨h2, h3⟩ := Covers_append.mp h3
  obtain ⟨h1, h2⟩ := Covers_append.mp h2
  simp only [leBytes_length, List.length_append] at h2 h3 h4 h5 h6
  rw [read_ResourceDirectoryTable, if_neg (by omega), if_neg (by omega)]
  rw [h1.decodeLE_leBytes_eq]
  rw [h2.decodeLE_leBytes_eq]
  rw [show off + 4 + 4 = off + 8 from by ring] at h3
  rw [h3.decodeLE_leBytes_eq]
  rw [show off + 4 + 4 + 2 = off + 10 from by ring] at h4
  rw [h4.decodeLE_leBytes_eq]
  rw [show off + 4 + 4 + 2 + 2 = off + 12 from by ring] at h5
  rw [h5.decodeLE_leBytes_eq]
  rw [show off + 4 + 4 + 2 + 2 + 2 = off + 14 from by ring] at h6
  rw [h6.decodeLE_leBytes_eq]
  rw [Nat.mod_eq_of_lt b1, Nat.mod_eq_of_lt b2, Nat.mod_eq_of_lt b3,
    Nat.mod_eq_of_lt b4, Nat.mod_eq_of_lt b5, Nat.mod_eq_of_lt b6]

theorem read_RDE_of_covers {img : Bytes} {off : Nat} (e : ResourceDirectoryEntry)
    (h : Covers img off e.as_bytes)
    (b1 : e.name_offset_or_integer_id < 2 ^ 32)
    (b2 : e.data_entry_or_subdirectory_offset < 2 ^ 32) :
    read_ResourceDirectoryEntry img off = .ok e := by
  have hlen := h.1
  rw [RDE_as_bytes_length] at hlen
  rw [ResourceDirectoryEntry.as_bytes] at h
  obtain ⟨h1, h2⟩ := Covers_append.mp h
  simp only [leBytes_length] at h2
  rw [read_ResourceDirectoryEntry, if_neg (by omega), if_neg (by omega)]
  rw [h1.decodeLE_leBytes_eq, h2.decodeLE_leBytes_eq]
  rw [Nat.mod_eq_of_lt b1, Nat.mod_eq_of_lt b2]

theorem read_RDataEntry_of_covers {img : Bytes} {off : Nat} (e : ResourceDataEntry)
    (h : Covers img off e.as_bytes)
    (b1 : e.data_rva < 2 ^ 32) (b2 : e.size < 2 ^ 32)
    (b3 : e.codepage < 2 ^ 32) (b4 : e.reserved < 2 ^ 32) :
    read_ResourceDataEntry img off = .ok e := by
  have hlen := h.1
  rw [RDataEntry_as_bytes_length] at hlen
  rw [ResourceDataEntry.as_bytes] at h
  obtain ⟨h3, h4⟩ := Covers_append.mp h
  obtain ⟨h2, h3⟩ := Covers_append.mp h3
  obtain ⟨h1, h2⟩ := Covers_append.mp h2
  simp only [leBytes_length, List.length_append] at h2 h3 h4
  rw [read_ResourceDataEntry, if_neg (by omega), if_neg (by omega)]
  rw [h1.decodeLE_leBytes_eq, h2.decodeLE_leBytes_eq]
  rw [show off + 4 + 4 = off + 8 from by ring] at h3
  rw [h3.decodeLE_leBytes_eq]
  rw [show off + 4 + 4 + 4 = off + 12 from by ring] at h4
  rw [h4.decodeLE_leBytes_eq]
  rw [Nat.mod_eq_of_lt b1, Nat.mod_eq_of_lt b2, Nat.mod_eq_of_lt b3,
    Nat.mod_eq_of_lt b4]

end Editpe

namespace Editpe

/-! ### C2 infrastructure: well-formedness of a resource tree

`wf` states exactly the conditions under which the on-disk encoding is lossless: header
fields fit their record widths and agree with the entry map, keys are distinct (an
`IndexMap` invariant), ids fit in 31 bits (the high bit is the name tag), and stored
name blobs carry a consistent length prefix. -/

/-- A stored name blob is its 2-byte unit count followed by that many UTF-16 units; an
id must leave the tag bit clear. -/
def ResourceEntryName.wf_name : ResourceEntryName → Bool
  | .ID i => decide (i < 2 ^ 31)
  | .Name data => decide (data.length = 2 + 2 * decodeLE data 0 2)

mutual
def ResourceTable.wf : ResourceTable → Bool
  | .mk hdr es =>
    decide (hdr.characteristics < 2 ^ 32) && decide (hdr.time_date_stamp < 2 ^ 32) &&
    decide (hdr.version_major < 2 ^ 16) && decide (hdr.version_minor < 2 ^ 16) &&
    decide (hdr.number_of_name_entries = es.countNames) &&
    decide (hdr.number_of_id_entries = es.countIds) &&
    decide (es.length < 2 ^ 16) &&
    decide es.keys.Nodup &&
    es.wf_entries
def ResourceEntries.wf_entries : ResourceEntries → Bool
  | .nil => true
  | .cons n e rest => n.wf_name && e.wf_entry && rest.wf_entries
def ResourceEntry.wf_entry : ResourceEntry → Bool
  | .Table t => t.wf
  | .Data d => decide (d.codepage < 2 ^ 32) && decide (d.reserved < 2 ^ 32)
end

/-- The leaf in-file address computation on an in-range built descriptor: the stored
`data_rva` is `va + p`, the signed arithmetic yields `p` back, and the packed-image
mask does not fire. -/
theorem packedLeafAddress_roundtrip (va p : Nat) (hp : p < 2 ^ 31) :
    packedLeafAddress 0 (va + p) va = p := by
  unfold packedLeafAddress
  have h1 : (((0 : Nat) : Int) + ((va + p : Nat) : Int) - ((va : Nat) : Int)) =
      ((p : Nat) : Int) := by push_cast; ring
  rw [h1]
  have h2 : ((p : Nat) : Int) % (2 ^ 64 : Int) = ((p : Nat) : Int) := by
    apply Int.emod_eq_of_lt (by positivity)
    have hl : ((p : Nat) : Int) < 2 ^ 31 := by exact_mod_cast hp
    omega
  simp only [h2, Int.toNat_natCast]
  rw [if_neg (and_mask_ne_of_lt (by omega))]

/-- `ResourceEntryName::parse` inverts the builder's name encoding: a string key's
patched offset points at its stored blob, an id key is returned as-is; the serialized
id field also fits in 32 bits. -/
theorem parse_name_correct (img : Bytes) (TS sto : Nat) (n : ResourceEntryName)
    (hwf : n.wf_name = true)
    (hcov : Covers img (TS + sto) n.string_data)
    (hb : TS + sto < 2 ^ 31) :
    ResourceEntryName.parse img 0
      (if n.string_size > 0 then (sto ||| 0x80000000) + TS else n.entryId) = .ok n ∧
    (if n.string_size > 0 then (sto ||| 0x80000000) + TS else n.entryId) < 2 ^ 32 := by
  cases n with
  | ID i =>
    simp only [ResourceEntryName.wf_name, decide_eq_true_eq] at hwf
    rw [if_neg (by simp [ResourceEntryName.string_size])]
    constructor
    · rw [ResourceEntryName.parse, if_neg (by
        simp only [ne_eq, not_not, ResourceEntryName.entryId]
        rw [hi_bit_eq]
        exact and_two_pow_of_lt hwf)]
      rfl
    · simp only [ResourceEntryName.entryId]
      omega
  | Name data =>
    simp only [ResourceEntryName.wf_name, decide_eq_true_eq] at hwf
    have hsz : (ResourceEntryName.Name data).string_size = data.length := rfl
    have hpos : data.length > 0 := by omega
    rw [if_pos (by rw [hsz]; exact hpos)]
    have hsto : sto < 2 ^ 31 := by omega
    have hstored : (sto ||| 0x80000000) + TS = (sto + TS) + 2 ^ 31 := by
      rw [hi_bit_eq, lor_two_pow hsto]
      ring
    have hdata : (ResourceEntryName.Name data).string_data = data := rfl
    rw [hdata] at hcov
    constructor
    · rw [ResourceEntryName.parse, if_pos (by
        rw [hstored, hi_bit_eq]
        have h0 := and_two_pow_of_add (a := sto + TS) (n := 31) (by omega)
        rw [ne_eq, h0]
        norm_num)]
      rw [hstored, hi_bit_eq,
        xor_two_pow_recover (show sto + TS < 2 ^ 31 from by omega)]
      rw [show (0 : Nat) + (sto + TS) = TS + sto from by ring]
      have hrd : readUN img (TS + sto) 2 = .ok (decodeLE data 0 2) := by
        rw [readUN, if_neg (by have := hcov.1; omega), if_neg (by
          have := hcov.1
          omega)]
        rw [hcov.decodeLE_eq (by omega)]
      simp only [Res.bind_eq]
      rw [hrd]
      simp only [Res.bind_ok]
      rw [show TS + sto + 2 + decodeLE data 0 2 * 2 = TS + sto + data.length from by
        rw [hwf]; ring]
      rw [hcov.slice_eq]
      rfl
    · omega

end Editpe

namespace Editpe

/-! ### C2: the build/parse round-trip induction -/

/-- `TableData.ser` on an entry record, as a record update. -/
theorem ser_entry_eq (TS SS a b : Nat) :
    TableData.ser TS SS (.Entry ⟨a, b⟩) =
    ResourceDirectoryEntry.as_bytes
      ⟨(if a &&& 0x80000000 ≠ 0 then a + TS else a),
        (if b &&& 0x80000000 = 0 then b + (TS + SS) else b)⟩ := by
  unfold TableData.ser
  by_cases hb : b &&& 0x80000000 = 0 <;> by_cases ha : a &&& 0x80000000 ≠ 0 <;>
    simp [hb, ha]

mutual

/-- Parsing at a subtable's build offset reconstructs the subtable, given that the
image holds the builder's four streams for it at the threaded offsets. -/
theorem parse_table_correct : (t : ResourceTable) →
    ∀ fuel img va TS SS DS tbo sto deo dao,
    t.wf = true →
    img.length < 2 ^ 31 →
    va + img.length < 2 ^ 32 →
    Covers img tbo (serTDlist TS SS (t.build_table va tbo sto deo dao).1.1) →
    Covers img (TS + sto) (t.build_table va tbo sto deo dao).1.2.1 →
    Covers img (TS + SS + deo)
      (serDescs (TS + SS + DS) (t.build_table va tbo sto deo dao).1.2.2.1) →
    Covers img (TS + SS + DS + dao) (t.build_table va tbo sto deo dao).1.2.2.2 →
    t.parse_fuel ≤ fuel →
    ResourceTable.parse fuel img 0 va tbo = .ok t
  | .mk hdr es => by
    intro fuel img va TS SS DS tbo sto deo dao hwf himg hva hc1 hc2 hc3 hc4 hfuel
    cases fuel with
    | zero => simp [ResourceTable.parse_fuel] at hfuel
    | succ f =>
    rcases hp1 : es.pass1 es.length (tbo + 16) va sto deo dao 0 with
      ⟨⟨e_td, e_s, e_d, e_p⟩, sto1, deo1, dao1⟩
    rcases hp2 : es.pass2 va (tbo + 16 + 8 * es.length) sto1 deo1 dao1 with
      ⟨⟨c_td, c_s, c_d, c_p⟩, tbo2, sto2, deo2, dao2⟩
    have hbt : (ResourceTable.mk hdr es).build_table va tbo sto deo dao =
        ((TableData.Table hdr :: (e_td ++ c_td), e_s ++ c_s, e_d ++ c_d, e_p ++ c_p),
          tbo2, sto2, deo2, dao2) := by
      simp only [ResourceTable.build_table, hp1, hp2]
    rw [hbt] at hc1 hc2 hc3 hc4
    simp only at hc1 hc2 hc3 hc4
    have hplen := pass1_streams_len es es.length (tbo + 16) va sto deo dao 0
    rw [hp1] at hplen
    simp only at hplen
    obtain ⟨hpl1, hpl2, hpl3, hpl4⟩ := hplen
    have hsnd := pass1_snd es es.length (tbo + 16) va sto deo dao 0
    rw [hp1] at hsnd
    simp only at hsnd
    have hs1 : sto1 = sto + es.own_names_size := congrArg (·.1) hsnd
    have hs2 : deo1 = deo + es.own_descriptions_size := congrArg (·.2.1) hsnd
    have hs3 : dao1 = dao + es.own_data_size := congrArg (·.2.2) hsnd
    -- split the covers facts
    rw [show serTDlist TS SS (TableData.Table hdr :: (e_td ++ c_td)) =
        hdr.as_bytes ++ (serTDlist TS SS e_td ++ serTDlist TS SS c_td) from by
      simp [serTDlist, TableData.ser]] at hc1
    obtain ⟨hchdr, hc1⟩ := Covers_append.mp hc1
    rw [RDT_as_bytes_length] at hc1
    obtain ⟨hce, hcc⟩ := Covers_append.mp hc1
    rw [serTDlist_length, hpl1] at hcc
    obtain ⟨hse, hsc⟩ := Covers_append.mp hc2
    rw [hpl2] at hsc
    rw [serDescs_append] at hc3
    obtain ⟨hde, hdc⟩ := Covers_append.mp hc3
    rw [serDescs_length] at hdc
    rw [show 16 * e_d.length = es.own_descriptions_size from hpl3] at hdc
    obtain ⟨hpe, hpc⟩ := Covers_append.mp hc4
    rw [hpl4] at hpc
    -- well-formedness components
    simp only [ResourceTable.wf, Bool.and_eq_true, decide_eq_true_eq] at hwf
    obtain ⟨⟨⟨⟨⟨⟨⟨⟨w1, w2⟩, w3⟩, w4⟩, w5⟩, w6⟩, w7⟩, w8⟩, w9⟩ := hwf
    have hcount := countNames_add_countIds es
    -- unfold one parse step
    rw [ResourceTable.parse]
    simp only [Nat.zero_add, Res.bind_eq]
    rw [read_RDT_of_covers hdr hchdr w1 w2 w3 w4
      (by rw [w5]; omega) (by rw [w6]; omega)]
    simp only [Res.bind_ok]
    rw [show hdr.number_of_name_entries + hdr.number_of_id_entries = es.length from by
      rw [w5, w6]; exact hcount]
    rw [parse_entries_correct es f img va TS SS DS es.length (tbo + 16) sto deo dao 0
      (tbo + 16 + 8 * es.length) sto1 deo1 dao1 (tbo + 16) .nil w9 w8
      (fun k _ => rfl) himg hva rfl
      (by rw [hp1]; exact hce)
      (by rw [hp1]; exact hse)
      (by rw [hp1]; exact hde)
      (by rw [hp1]; exact hpe)
      (by rw [hp2]; exact hcc)
      (by rw [hp2, hs1, show TS + (sto + es.own_names_size) =
            TS + sto + es.own_names_size from by ring]
          exact hsc)
      (by rw [hp2, hs2, show TS + SS + (deo + es.own_descriptions_size) =
            TS + SS + deo + es.own_descriptions_size from by ring]
          exact hdc)
      (by rw [hp2, hs3, show TS + SS + DS + (dao + es.own_data_size) =
            TS + SS + DS + dao + es.own_data_size from by ring]
          exact hpc)
      (by simp only [ResourceTable.parse_fuel] at hfuel; omega)]
    rfl
termination_by structural t => t

/-- Parsing the remaining entry records of a table appends exactly those entries to
the accumulator, given the image holds the records, names, descriptors, payloads and
sub-table streams the builder emitted for them. -/
theorem parse_entries_correct : (es : ResourceEntries) →
    ∀ fuel img va TS SS DS fullLen base1 sto deo dao nts ctbo csto cdeo cdao eo acc,
    es.wf_entries = true →
    es.keys.Nodup →
    (∀ k, k ∈ es.keys → acc.get k = none) →
    img.length < 2 ^ 31 →
    va + img.length < 2 ^ 32 →
    ctbo = base1 + 8 * fullLen + nts →
    Covers img eo (serTDlist TS SS (es.pass1 fullLen base1 va sto deo dao nts).1.1) →
    Covers img (TS + sto) (es.pass1 fullLen base1 va sto deo dao nts).1.2.1 →
    Covers img (TS + SS + deo)
      (serDescs (TS + SS + DS) (es.pass1 fullLen base1 va sto deo dao nts).1.2.2.1) →
    Covers img (TS + SS + DS + dao) (es.pass1 fullLen base1 va sto deo dao nts).1.2.2.2 →
    Covers img ctbo (serTDlist TS SS (es.pass2 va ctbo csto cdeo cdao).1.1) →
    Covers img (TS + csto) (es.pass2 va ctbo csto cdeo cdao).1.2.1 →
    Covers img (TS + SS + cdeo)
      (serDescs (TS + SS + DS) (es.pass2 va ctbo csto cdeo cdao).1.2.2.1) →
    Covers img (TS + SS + DS + cdao) (es.pass2 va ctbo csto cdeo cdao).1.2.2.2 →
    es.parse_entries_fuel ≤ fuel →
    ResourceTable.parse_entries fuel img 0 va eo es.length acc = .ok (acc.append es)
  | .nil => by
    intro fuel img va TS SS DS fullLen base1 sto deo dao nts ctbo csto cdeo cdao eo acc
      hwf hnodup hfresh himg hva hct hc1 hc2 hc3 hc4 hd1 hd2 hd3 hd4 hfuel
    simp [ResourceTable.parse_entries, ResourceEntries.length, entries_append_nil]
  | .cons n (.Table t') rest => by
    intro fuel img va TS SS DS fullLen base1 sto deo dao nts ctbo csto cdeo cdao eo acc
      hwf hnodup hfresh himg hva hct hc1 hc2 hc3 hc4 hd1 hd2 hd3 hd4 hfuel
    cases fuel with
    | zero => simp [ResourceEntries.parse_entries_fuel] at hfuel
    | succ f =>
    -- well-formedness and key components
    simp only [ResourceEntries.wf_entries, Bool.and_eq_true] at hwf
    obtain ⟨⟨hwn, hwe⟩, hwr⟩ := hwf
    simp only [ResourceEntry.wf_entry] at hwe
    rw [show (ResourceEntries.cons n (.Table t') rest).keys = n :: rest.keys from rfl,
      List.nodup_cons] at hnodup
    obtain ⟨hnmem, hnodup'⟩ := hnodup
    -- reduce pass1 and pass2 on the cons
    rcases hq1 : rest.pass1 fullLen base1 va (sto + n.string_size) deo dao
        (nts + t'.tables_size) with ⟨⟨r_td, r_s, r_d, r_p⟩, sto2, deo2, dao2⟩
    have hP1 : (ResourceEntries.cons n (.Table t') rest).pass1 fullLen base1 va sto deo
        dao nts =
        ((TableData.Entry ⟨(if n.string_size > 0 then sto ||| 0x80000000
            else n.entryId), (base1 + 8 * fullLen + nts) ||| 0x80000000⟩ :: r_td,
          n.string_data ++ r_s, r_d, r_p), sto2, deo2, dao2) := by
      simp only [ResourceEntries.pass1, hq1]
    rcases hq2 : t'.build_table va ctbo csto cdeo cdao with
      ⟨⟨t_td, t_s, t_d, t_p⟩, ctbo1, csto1, cdeo1, cdao1⟩
    rcases hr2 : rest.pass2 va ctbo1 csto1 cdeo1 cdao1 with
      ⟨⟨w_td, w_s, w_d, w_p⟩, ctbo3, csto3, cdeo3, cdao3⟩
    have hP2 : (ResourceEntries.cons n (.Table t') rest).pass2 va ctbo csto cdeo cdao =
        ((t_td ++ w_td, t_s ++ w_s, t_d ++ w_d, t_p ++ w_p),
          ctbo3, csto3, cdeo3, cdao3) := by
      simp only [ResourceEntries.pass2, hq2, hr2]
    rw [hP1] at hc1 hc2 hc3 hc4
    rw [hP2] at hd1 hd2 hd3 hd4
    -- lengths and final offsets of the child streams
    have htlen := build_table_streams_len t' va ctbo csto cdeo cdao
    rw [hq2] at htlen
    simp only at htlen
    obtain ⟨htl1, htl2, htl3, htl4⟩ := htlen
    have htsnd := build_table_snd t' va ctbo csto cdeo cdao
    rw [hq2] at htsnd
    simp only at htsnd
    have ht1 : ctbo1 = ctbo + t'.tables_size := congrArg (·.1) htsnd
    have ht2 : csto1 = csto + t'.strings_size := congrArg (·.2.1) htsnd
    have ht3 : cdeo1 = cdeo + t'.descriptions_size := congrArg (·.2.2.1) htsnd
    have ht4 : cdao1 = cdao + t'.data_size := congrArg (·.2.2.2) htsnd
    -- bounds
    have hctbo : ctbo < 2 ^ 31 := by have := hd1.mono_head; omega
    have hTSsto : TS + sto < 2 ^ 31 := by have := hc2.mono_head; omega
    have hsto31 : sto < 2 ^ 31 := by omega
    -- serialization of this entry's record
    have hser : TableData.ser TS SS (TableData.Entry
        ⟨(if n.string_size > 0 then sto ||| 0x80000000 else n.entryId),
          (base1 + 8 * fullLen + nts) ||| 0x80000000⟩) =
        ResourceDirectoryEntry.as_bytes
          ⟨(if n.string_size > 0 then (sto ||| 0x80000000) + TS else n.entryId),
            ctbo ||| 0x80000000⟩ := by
      rw [← hct, ser_entry_eq]
      have hbtag : ¬ ((ctbo ||| 0x80000000) &&& 0x80000000 = 0) := by
        rw [hi_bit_eq, lor_two_pow hctbo]
        have h0 := and_two_pow_of_add (a := ctbo) (n := 31) hctbo
        rw [h0]
        norm_num
      rw [if_neg hbtag]
      by_cases hn : n.string_size > 0
      · rw [if_pos hn, if_pos hn]
        rw [if_pos (by
          rw [hi_bit_eq, lor_two_pow hsto31, ne_eq]
          have h0 := and_two_pow_of_add (a := sto) (n := 31) hsto31
          rw [h0]
          norm_num)]
      · rw [if_neg hn, if_neg hn]
        have hid : n.entryId < 2 ^ 31 := by
          cases n with
          | ID i =>
            simp only [ResourceEntryName.wf_name, decide_eq_true_eq] at hwn
            exact hwn
          | Name data =>
            exact absurd (by
              simp only [ResourceEntryName.wf_name, decide_eq_true_eq] at hwn
              simp only [ResourceEntryName.string_size]
              omega) hn
        rw [if_neg (by
          rw [hi_bit_eq, and_two_pow_of_lt hid, ne_eq]
          norm_num)]
    -- split the covers facts
    rw [show serTDlist TS SS (TableData.Entry
        ⟨(if n.string_size > 0 then sto ||| 0x80000000 else n.entryId),
          (base1 + 8 * fullLen + nts) ||| 0x80000000⟩ :: r_td) =
        TableData.ser TS SS (TableData.Entry
        ⟨(if n.string_size > 0 then sto ||| 0x80000000 else n.entryId),
          (base1 + 8 * fullLen + nts) ||| 0x80000000⟩) ++ serTDlist TS SS r_td from by
      simp [serTDlist, List.flatMap_cons]] at hc1
    rw [hser] at hc1
    obtain ⟨hcrec, hcrest⟩ := Covers_append.mp hc1
    rw [RDE_as_bytes_length] at hcrest
    obtain ⟨hcname, hcsrest⟩ := Covers_append.mp hc2
    rw [string_data_length] at hcsrest
    rw [serTDlist_append] at hd1
    obtain ⟨hdt, hdrest⟩ := Covers_append.mp hd1
    rw [serTDlist_length, htl1] at hdrest
    obtain ⟨hst, hsrest⟩ := Covers_append.mp hd2
    rw [htl2] at hsrest
    rw [serDescs_append] at hd3
    obtain ⟨hdet, hderest⟩ := Covers_append.mp hd3
    rw [serDescs_length] at hderest
    rw [show 16 * t_d.length = t'.descriptions_size from htl3] at hderest
    obtain ⟨hpt, hprest⟩ := Covers_append.mp hd4
    rw [htl4] at hprest
    -- name parse
    have hname := parse_name_correct img TS sto n hwn hcname hTSsto
    -- one loop step
    simp only [ResourceEntries.length]
    rw [ResourceTable.parse_entries]
    rw [read_RDE_of_covers _ hcrec hname.2 (by
      show (ctbo ||| 0x80000000) < 2 ^ 32
      rw [hi_bit_eq, lor_two_pow hctbo]
      omega)]
    simp only [Res.bind_eq, Res.bind_ok]
    rw [if_pos (by
      show (ctbo ||| 0x80000000) &&& 0x80000000 ≠ 0
      rw [hi_bit_eq, lor_two_pow hctbo, ne_eq]
      have h0 := and_two_pow_of_add (a := ctbo) (n := 31) hctbo
      rw [h0]
      norm_num)]
    rw [hname.1]
    simp only [Res.bind_ok]
    rw [show ((ctbo ||| 0x80000000) ^^^ 0x80000000) = ctbo from by
      rw [hi_bit_eq, lor_two_pow hctbo, xor_two_pow_recover hctbo]]
    rw [parse_table_correct t' f img va TS SS DS ctbo csto cdeo cdao hwe himg hva
      (by rw [hq2]; exact hdt)
      (by rw [hq2]; exact hst)
      (by rw [hq2]; exact hdet)
      (by rw [hq2]; exact hpt)
      (by simp only [ResourceEntries.parse_entries_fuel,
            ResourceEntry.entry_parse_fuel] at hfuel
          omega)]
    simp only [Res.bind_ok]
    rw [insertMap_fresh acc n (.Table t') (hfresh n (by
      simp [ResourceEntries.keys]))]
    rw [parse_entries_correct rest f img va TS SS DS fullLen base1
      (sto + n.string_size) deo dao (nts + t'.tables_size) ctbo1 csto1 cdeo1 cdao1
      (eo + 8) (acc.append (.cons n (.Table t') .nil)) hwr hnodup'
      (fun k hk => get_append_none acc _ k (hfresh k (by
        simp only [ResourceEntries.keys, List.mem_cons]
        exact Or.inr hk)) (by
        simp only [ResourceEntries.get]
        rw [if_neg (by
          intro hcontra
          exact hnmem (hcontra ▸ hk))]))
      himg hva (by rw [ht1, hct]; ring)
      (by rw [hq1]; exact hcrest)
      (by rw [hq1]
          rw [show TS + (sto + n.string_size) = TS + sto + n.string_size from by ring]
          exact hcsrest)
      (by rw [hq1]; exact hc3)
      (by rw [hq1]; exact hc4)
      (by rw [hr2, ht1]; exact hdrest)
      (by rw [hr2, ht2, show TS + (csto + t'.strings_size) =
            TS + csto + t'.strings_size from by ring]
          exact hsrest)
      (by rw [hr2, ht3, show TS + SS + (cdeo + t'.descriptions_size) =
            TS + SS + cdeo + t'.descriptions_size from by ring]
          exact hderest)
      (by rw [hr2, ht4, show TS + SS + DS + (cdao + t'.data_size) =
            TS + SS + DS + cdao + t'.data_size from by ring]
          exact hprest)
      (by simp only [ResourceEntries.parse_entries_fuel] at hfuel; omega)]
    rw [entries_append_assoc]
    rfl
  | .cons n (.Data d0) rest => by
    intro fuel img va TS SS DS fullLen base1 sto deo dao nts ctbo csto cdeo cdao eo acc
      hwf hnodup hfresh himg hva hct hc1 hc2 hc3 hc4 hd1 hd2 hd3 hd4 hfuel
    cases fuel with
    | zero => simp [ResourceEntries.parse_entries_fuel] at hfuel
    | succ f =>
    simp only [ResourceEntries.wf_entries, Bool.and_eq_true] at hwf
    obtain ⟨⟨hwn, hwe⟩, hwr⟩ := hwf
    simp only [ResourceEntry.wf_entry, Bool.and_eq_true, decide_eq_true_eq] at hwe
    obtain ⟨hcp, hrsv⟩ := hwe
    rw [show (ResourceEntries.cons n (.Data d0) rest).keys = n :: rest.keys from rfl,
      List.nodup_cons] at hnodup
    obtain ⟨hnmem, hnodup'⟩ := hnodup
    rcases hq1 : rest.pass1 fullLen base1 va (sto + n.string_size) (deo + 16)
        (dao + d0.data.length) nts with ⟨⟨r_td, r_s, r_d, r_p⟩, sto2, deo2, dao2⟩
    have hP1 : (ResourceEntries.cons n (.Data d0) rest).pass1 fullLen base1 va sto deo
        dao nts =
        ((TableData.Entry ⟨(if n.string_size > 0 then sto ||| 0x80000000
            else n.entryId), deo⟩ :: r_td,
          n.string_data ++ r_s,
          (⟨dao + va, d0.data.length, d0.codepage, d0.reserved⟩ : ResourceDataEntry)
            :: r_d,
          d0.data ++ r_p), sto2, deo2, dao2) := by
      simp only [ResourceEntries.pass1, hq1]
    have hP2 : (ResourceEntries.cons n (.Data d0) rest).pass2 va ctbo csto cdeo cdao =
        rest.pass2 va ctbo csto cdeo cdao := rfl
    rw [hP1] at hc1 hc2 hc3 hc4
    rw [hP2] at hd1 hd2 hd3 hd4
    -- bounds
    have hTSsto : TS + sto < 2 ^ 31 := by have := hc2.mono_head; omega
    have hdeoTS : TS + SS + deo < 2 ^ 31 := by have := hc3.mono_head; omega
    have hdaoTS : TS + SS + DS + dao < 2 ^ 31 := by have := hc4.mono_head; omega
    -- serialization of this entry's record: the leaf offset gets the strings end added
    have hser : TableData.ser TS SS (TableData.Entry
        ⟨(if n.string_size > 0 then sto ||| 0x80000000 else n.entryId), deo⟩) =
        ResourceDirectoryEntry.as_bytes
          ⟨(if n.string_size > 0 then (sto ||| 0x80000000) + TS else n.entryId),
            deo + (TS + SS)⟩ := by
      rw [ser_entry_eq]
      have hbtag : deo &&& 0x80000000 = 0 := by
        rw [hi_bit_eq]
        exact and_two_pow_of_lt (show deo < 2 ^ 31 from by omega)
      rw [if_pos hbtag]
      by_cases hn : n.string_size > 0
      · rw [if_pos hn, if_pos hn]
        have hatag : (sto ||| 0x80000000) &&& 0x80000000 ≠ 0 := by
          rw [hi_bit_eq, lor_two_pow (show sto < 2 ^ 31 from by omega), ne_eq]
          have h0 := and_two_pow_of_add (a := sto) (n := 31)
            (show sto < 2 ^ 31 from by omega)
          rw [h0]
          norm_num
        rw [if_pos hatag]
      · rw [if_neg hn, if_neg hn]
        have hid : n.entryId < 2 ^ 31 := by
          cases n with
          | ID i =>
            simp only [ResourceEntryName.wf_name, decide_eq_true_eq] at hwn
            exact hwn
          | Name data =>
            exact absurd (by
              simp only [ResourceEntryName.wf_name, decide_eq_true_eq] at hwn
              simp only [ResourceEntryName.string_size]
              omega) hn
        rw [if_neg (by
          rw [hi_bit_eq, and_two_pow_of_lt hid, ne_eq]
          norm_num)]
    -- split the covers facts
    rw [show serTDlist TS SS (TableData.Entry
        ⟨(if n.string_size > 0 then sto ||| 0x80000000 else n.entryId), deo⟩ :: r_td) =
        TableData.ser TS SS (TableData.Entry
        ⟨(if n.string_size > 0 then sto ||| 0x80000000 else n.entryId), deo⟩) ++
        serTDlist TS SS r_td from by simp [serTDlist, List.flatMap_cons]] at hc1
    rw [hser] at hc1
    obtain ⟨hcrec, hcrest⟩ := Covers_append.mp hc1
    rw [RDE_as_bytes_length] at hcrest
    obtain ⟨hcname, hcsrest⟩ := Covers_append.mp hc2
    rw [string_data_length] at hcsrest
    rw [show serDescs (TS + SS + DS)
        ((⟨dao + va, d0.data.length, d0.codepage, d0.reserved⟩ : ResourceDataEntry)
          :: r_d) =
        ResourceDataEntry.as_bytes
          ⟨dao + va + (TS + SS + DS), d0.data.length, d0.codepage, d0.reserved⟩ ++
        serDescs (TS + SS + DS) r_d from by simp [serDescs, List.flatMap_cons]] at hc3
    obtain ⟨hcdesc, hcdrest⟩ := Covers_append.mp hc3
    rw [RDataEntry_as_bytes_length] at hcdrest
    obtain ⟨hcpay, hcprest⟩ := Covers_append.mp hc4
    -- name parse
    have hname := parse_name_correct img TS sto n hwn hcname hTSsto
    -- one loop step
    simp only [ResourceEntries.length]
    rw [ResourceTable.parse_entries]
    rw [read_RDE_of_covers _ hcrec hname.2 (by
      show deo + (TS + SS) < 2 ^ 32
      omega)]
    simp only [Res.bind_eq, Res.bind_ok]
    rw [if_neg (by
      show ¬ ((deo + (TS + SS)) &&& 0x80000000 ≠ 0)
      rw [not_not, hi_bit_eq]
      exact and_two_pow_of_lt (show deo + (TS + SS) < 2 ^ 31 from by omega))]
    rw [show (0 : Nat) + (deo + (TS + SS)) = TS + SS + deo from by ring]
    rw [read_RDataEntry_of_covers _ hcdesc
      (by show dao + va + (TS + SS + DS) < 2 ^ 32
          have := hcpay.1
          omega)
      (by show d0.data.length < 2 ^ 32
          have := hcpay.1
          omega)
      hcp hrsv]
    simp only [Res.bind_ok]
    rw [show dao + va + (TS + SS + DS) = va + (TS + SS + DS + dao) from by ring]
    rw [packedLeafAddress_roundtrip va (TS + SS + DS + dao) hdaoTS]
    rw [if_neg (by
      show ¬ (TS + SS + DS + dao + d0.data.length > img.length)
      have := hcpay.1
      omega)]
    rw [Nat.mod_eq_of_lt (show TS + SS + DS + dao < 2 ^ 32 from by omega)]
    rw [hname.1]
    simp only [Res.bind_ok]
    rw [hcpay.slice_eq]
    simp only [Res.bind_ok]
    rw [insertMap_fresh acc n (.Data ⟨d0.data, d0.codepage, d0.reserved⟩)
      (hfresh n (by simp [ResourceEntries.keys]))]
    rw [parse_entries_correct rest f img va TS SS DS fullLen base1
      (sto + n.string_size) (deo + 16) (dao + d0.data.length) nts ctbo csto cdeo cdao
      (eo + 8) (acc.append (.cons n (.Data ⟨d0.data, d0.codepage, d0.reserved⟩) .nil))
      hwr hnodup'
      (fun k hk => get_append_none acc _ k (hfresh k (by
        simp only [ResourceEntries.keys, List.mem_cons]
        exact Or.inr hk)) (by
        simp only [ResourceEntries.get]
        rw [if_neg (by
          intro hcontra
          exact hnmem (hcontra ▸ hk))]))
      himg hva hct
      (by rw [hq1]; exact hcrest)
      (by rw [hq1]
          rw [show TS + (sto + n.string_size) = TS + sto + n.string_size from by ring]
          exact hcsrest)
      (by rw [hq1]
          rw [show TS + SS + (deo + 16) = TS + SS + deo + 16 from by ring]
          exact hcdrest)
      (by rw [hq1]
          rw [show TS + SS + DS + (dao + d0.data.length) =
            TS + SS + DS + dao + d0.data.length from by ring]
          exact hcprest)
      hd1 hd2 hd3 hd4
      (by simp only [ResourceEntries.parse_entries_fuel] at hfuel; omega)]
    rw [entries_append_assoc]
    rfl
termination_by structural es => es

end

end Editpe

namespace Editpe

set_option maxRecDepth 1000000

/-- C2 (amended): `ResourceDirectory.parse(d.build(va), 0, va) == d` holds for
well-formed directories (`wf`: header fields fit their record widths and match the
entry map, keys are distinct, ids fit in 31 bits, stored name blobs are
length-consistent), sizes below `2^31` with `va + size < 2^32`, sufficient parser
fuel — and, crucially, only when `d.virtual_address = va`: the parser returns a
directory whose `virtual_address` is its `va` argument, so the original claim fails
for every `d` with `d.virtual_address ≠ va`. -/
theorem C2_build_parse_roundtrip (d : ResourceDirectory) (va fuel : Nat)
    (hwf : d.root.wf = true)
    (hsize : d.root.size < 2 ^ 31)
    (hva32 : va + d.root.size < 2 ^ 32)
    (hva : d.virtual_address = va)
    (hfuel : d.root.parse_fuel ≤ fuel) :
    ResourceDirectory.parse fuel (d.build va) 0 va = .ok d := by
  have himglen : (d.build va).length = d.root.size := build_length d.root va
  rcases hb : d.root.build_table va 0 0 0 0 with ⟨⟨td, ss, ds, pp⟩, TBO, STO, DEO, DAO⟩
  have hsnd := build_table_snd d.root va 0 0 0 0
  rw [hb] at hsnd
  simp only at hsnd
  have h1 : TBO = d.root.tables_size := by
    have := congrArg (·.1) hsnd; simpa using this
  have h2 : STO = d.root.strings_size := by
    have := congrArg (·.2.1) hsnd; simpa using this
  have h3 : DEO = d.root.descriptions_size := by
    have := congrArg (·.2.2.1) hsnd; simpa using this
  have hlen := build_table_streams_len d.root va 0 0 0 0
  rw [hb] at hlen
  simp only at hlen
  obtain ⟨hl1, hl2, hl3, hl4⟩ := hlen
  have himgdef : d.build va =
      serTDlist TBO STO td ++ (ss ++ (serDescs (TBO + STO + DEO) ds ++ pp)) := by
    simp only [ResourceDirectory.build, ResourceTable.build, hb]
    simp [List.append_assoc]
  have hcov0 : Covers (d.build va) 0
      (serTDlist TBO STO td ++ (ss ++ (serDescs (TBO + STO + DEO) ds ++ pp))) := by
    rw [← himgdef]
    exact covers_refl _
  obtain ⟨hcov1, hcovr⟩ := Covers_append.mp hcov0
  rw [Nat.zero_add, serTDlist_length, hl1, ← h1] at hcovr
  obtain ⟨hcov2, hcovr⟩ := Covers_append.mp hcovr
  rw [show ss.length = STO from by rw [hl2, h2]] at hcovr
  obtain ⟨hcov3, hcov4⟩ := Covers_append.mp hcovr
  rw [serDescs_length, show 16 * ds.length = DEO from by rw [hl3, h3]] at hcov4
  have himg31 : (d.build va).length < 2 ^ 31 := by rw [himglen]; exact hsize
  have hva' : va + (d.build va).length < 2 ^ 32 := by rw [himglen]; exact hva32
  have hmain := parse_table_correct d.root fuel (d.build va) va TBO STO DEO 0 0 0 0
    hwf himg31 hva'
    (by rw [hb]; exact hcov1)
    (by rw [hb]; exact hcov2)
    (by rw [hb]; exact hcov3)
    (by rw [hb]; exact hcov4)
    hfuel
  rw [ResourceDirectory.parse]
  simp only [Res.bind_eq]
  rw [hmain]
  simp only [Res.bind_ok]
  rw [← hva]

/-- A small well-formed directory whose stored `virtual_address` (1) differs from the
build/parse virtual address (0). -/
def exC2bad : ResourceDirectory :=
  ⟨1, .mk ⟨0, 0, 0, 0, 0, 1⟩ (.cons (.ID 3) (.Data ⟨[7], 0, 0⟩) .nil)⟩

/-- C2 counterexample: parsing what `exC2bad.build 0` produced (at virtual address 0)
yields a directory with `virtual_address = 0`, not the original `exC2bad` whose
`virtual_address` is 1 — `parse` takes the virtual address from its argument, not from
the bytes. -/
theorem C2_counterexample :
    ResourceDirectory.parse 2 (exC2bad.build 0) 0 0 = .ok ⟨0, exC2bad.root⟩ ∧
    ResourceDirectory.parse 2 (exC2bad.build 0) 0 0 ≠ .ok exC2bad := by
  constructor
  · decide
  · decide

/-- A two-level well-formed directory: a named subtable (name "AB") holding one id
leaf, and an id leaf at the root. -/
def exC2w : ResourceDirectory :=
  ⟨0x1000, .mk ⟨0, 0, 0, 0, 1, 1⟩
    (.cons (.Name [2, 0, 65, 0, 66, 0])
      (.Table (.mk ⟨0, 0, 0, 0, 0, 1⟩ (.cons (.ID 5) (.Data ⟨[1, 2, 3], 4, 5⟩) .nil)))
      (.cons (.ID 7) (.Data ⟨[9], 0, 0⟩) .nil))⟩

/-- Witness for C2 at `exC2w` and matching virtual address `0x1000`. -/
theorem C2_witness :
    ResourceDirectory.parse 4 (exC2w.build 0x1000) 0 0x1000 = .ok exC2w :=
  C2_build_parse_roundtrip exC2w 0x1000 4 (by decide) (by decide) (by decide) rfl
    (by decide)

end Editpe
